import Mathlib

/-!
Verification of the canonical-URL / generation / verification core of the
`@pas7/llm-seo` repository, as a shallow embedding in Lean 4.

Conventions of the embedding:
* TypeScript strings are Lean `String`s; `undefined`/missing optional values
  are `Option.none`; JavaScript string truthiness (`undefined`, `null` and
  `""` are falsy) is made explicit through `jsTruthyStr`.
* Host-environment builtins that are not part of the repository (the WHATWG
  `URL` parser, `String.prototype.localeCompare`, `Date` parsing) are modelled
  by explicit executable Lean definitions, each marked `Modelled builtin` in
  its doc comment together with the restriction of the model.
* Functions that can throw (`normalizeUrl` on an unparseable base URL) return
  `Except String _`; `async` file access is modelled by passing the file
  system as an explicit function `String → Option String` (the result of
  `readFileContent`: file content, or `none` when the file does not exist).
* JavaScript `Array.prototype.sort` (stable, comparator-driven) is modelled by
  `List.insertionSort`, which is stable and sorts with respect to the
  comparator's non-strict relation.
-/

/-! ## JS string primitives -/

/-- Modelled builtin: JavaScript `String.prototype.includes` (substring test).
`jsIncludesL sub l` is true when `sub` occurs as a contiguous infix of `l`. -/
def jsIncludesL (sub : List Char) : List Char → Bool
  | [] => sub.isEmpty
  | l@(_ :: xs) => sub.isPrefixOf l || jsIncludesL sub xs

/-- Modelled builtin: `a.includes(b)` on strings. -/
def jsIncludes (s sub : String) : Bool :=
  jsIncludesL sub.data s.data

/-- Splits a list of characters on every occurrence of the character `c`,
accumulating the current chunk in `acc` (held reversed). Models
`String.prototype.split` with a single-character separator. -/
def splitOnCharAux (c : Char) : List Char → List Char → List (List Char)
  | [], acc => [acc.reverse]
  | x :: xs, acc =>
    if x = c then acc.reverse :: splitOnCharAux c xs []
    else splitOnCharAux c xs (x :: acc)

/-- Modelled builtin: JavaScript `s.split(c)` for a one-character separator. -/
def splitOnChar (c : Char) (l : List Char) : List (List Char) :=
  splitOnCharAux c l []

/-- `s.split(c)` lifted to `String`. -/
def jsSplitChar (s : String) (c : Char) : List String :=
  (splitOnChar c s.data).map List.asString

/-- Drops the leading run of character `c` (models `replace(/^c+/, '')`). -/
def dropLeadingRun (c : Char) (l : List Char) : List Char :=
  l.dropWhile (· = c)

/-- Drops the trailing run of character `c` (models `replace(/c+$/, '')`). -/
def dropTrailingRun (c : Char) (l : List Char) : List Char :=
  (l.reverse.dropWhile (· = c)).reverse

/-- JS string truthiness for an optional string: `undefined` and `""` are
falsy, every other string is truthy. -/
def jsTruthyStr : Option String → Bool
  | none => false
  | some s => s ≠ ""

/-- Splits a character list at the first occurrence of `sep`, returning the
chunks before and after it, or `none` when `sep` does not occur. -/
def splitFirst (sep : List Char) : List Char → Option (List Char × List Char)
  | [] => if sep.isEmpty then some ([], []) else none
  | x :: xs =>
    if sep.isPrefixOf (x :: xs) then some ([], (x :: xs).drop sep.length)
    else (splitFirst sep xs).map (fun p => (x :: p.1, p.2))

/-- Modelled builtin: JavaScript `String.prototype.toLowerCase`, restricted
to its ASCII behaviour (`Char.toLower` on each character). -/
def jsToLower (s : String) : String :=
  String.mk (s.data.map Char.toLower)

instance {ε α : Type} [DecidableEq ε] [DecidableEq α] : DecidableEq (Except ε α) :=
  fun a b =>
    match a, b with
    | .ok x, .ok y =>
      if h : x = y then isTrue (by rw [h]) else isFalse (by simp [h])
    | .error x, .error y =>
      if h : x = y then isTrue (by rw [h]) else isFalse (by simp [h])
    | .ok _, .error _ => isFalse (by simp)
    | .error _, .ok _ => isFalse (by simp)

/-! ## Deterministic sorter (src/core/normalize/sort.ts)

The repository compares strings with
`a.localeCompare(b, 'en', { sensitivity: 'case', numeric: true })`.
The host collation is a builtin; we model the comparator's non-strict
relation by codepoint order (`String.le`), which agrees with the ICU `en`
collation on the strings manipulated here (lowercase-ASCII locale codes and
normalized URLs without multi-digit numerals). -/

/-- Lexicographic non-strict comparison of character lists, by codepoint. -/
def lexLeB : List Char → List Char → Bool
  | [], _ => true
  | _ :: _, [] => false
  | x :: xs, y :: ys => if x = y then lexLeB xs ys else decide (x < y)

/-- Modelled builtin: the non-strict relation of the deterministic
`compareStrings` comparator (`localeCompare` with the `'en'` collation). -/
def localeLe (a b : String) : Prop := lexLeB a.data b.data = true

instance : DecidableRel localeLe :=
  fun a b => inferInstanceAs (Decidable (lexLeB a.data b.data = true))

theorem lexLeB_refl : ∀ l : List Char, lexLeB l l = true
  | [] => rfl
  | x :: xs => by simp [lexLeB, lexLeB_refl xs]

theorem lexLeB_total : ∀ a b : List Char, lexLeB a b = true ∨ lexLeB b a = true
  | [], _ => Or.inl rfl
  | _ :: _, [] => Or.inr rfl
  | x :: xs, y :: ys => by
    by_cases h : x = y
    · subst h
      simpa [lexLeB] using lexLeB_total xs ys
    · rcases lt_or_gt_of_ne h with hlt | hgt
      · exact Or.inl (by simp [lexLeB, h, hlt])
      · exact Or.inr (by simp [lexLeB, Ne.symm h, hgt])

theorem lexLeB_antisymm : ∀ a b : List Char,
    lexLeB a b = true → lexLeB b a = true → a = b
  | [], [], _, _ => rfl
  | [], _ :: _, _, h => by simp [lexLeB] at h
  | _ :: _, [], h, _ => by simp [lexLeB] at h
  | x :: xs, y :: ys, h, h' => by
    by_cases hxy : x = y
    · subst hxy
      simp only [lexLeB, if_pos rfl] at h h'
      exact congrArg (x :: ·) (lexLeB_antisymm xs ys h h')
    · simp only [lexLeB, if_neg hxy, decide_eq_true_eq] at h
      simp only [lexLeB, if_neg (Ne.symm hxy), decide_eq_true_eq] at h'
      exact absurd (lt_trans h h') (lt_irrefl x)

theorem lexLeB_trans : ∀ a b c : List Char,
    lexLeB a b = true → lexLeB b c = true → lexLeB a c = true
  | [], _, _, _, _ => rfl
  | _ :: _, [], _, h, _ => by simp [lexLeB] at h
  | _ :: _, _ :: _, [], _, h' => by simp [lexLeB] at h'
  | x :: xs, y :: ys, z :: zs, h, h' => by
    by_cases hxy : x = y <;> by_cases hyz : y = z
    · subst hxy; subst hyz
      simp only [lexLeB, if_pos rfl] at h h' ⊢
      exact lexLeB_trans xs ys zs h h'
    · subst hxy
      simp only [lexLeB, if_neg hyz] at h' ⊢
      exact h'
    · subst hyz
      simp only [lexLeB, if_neg hxy] at h ⊢
      exact h
    · simp only [lexLeB, if_neg hxy, decide_eq_true_eq] at h
      simp only [lexLeB, if_neg hyz, decide_eq_true_eq] at h'
      have hxz : x < z := lt_trans h h'
      simp [lexLeB, ne_of_lt hxz, hxz]

instance : IsTotal String localeLe := ⟨fun a b => lexLeB_total a.data b.data⟩

instance : IsTrans String localeLe :=
  ⟨fun a b c h h' => lexLeB_trans a.data b.data c.data h h'⟩

instance : IsAntisymm String localeLe :=
  ⟨fun a b h h' => congrArg String.mk (lexLeB_antisymm a.data b.data h h')⟩

/-- `sortStrings` (src/core/normalize/sort.ts): sorts with `compareStrings`.
JS `Array.prototype.sort` is stable, modelled by insertion sort. -/
def sortStrings (items : List String) : List String :=
  List.insertionSort localeLe items

/-- `stableSortStrings` (src/core/normalize/sort.ts): same comparator as
`sortStrings` (the source duplicates the lambda). -/
def stableSortStrings (items : List String) : List String :=
  List.insertionSort localeLe items

/-- `sortBy` (src/core/normalize/sort.ts): sorts objects by a string key with
`compareStrings`. -/
def sortBy {α : Type} (items : List α) (keyFn : α → String) : List α :=
  List.insertionSort (fun a b => localeLe (keyFn a) (keyFn b)) items

/-! ## Locale selector (src/core/canonical/locale.ts) -/

/-- `selectCanonicalLocale` (src/core/canonical/locale.ts). The source takes
an options object `{ defaultLocale, availableLocales }`; the two fields are
passed positionally here. Returns `none` for the source's `null`. -/
def selectCanonicalLocale (defaultLocale : String) (availableLocales : List String) :
    Option String :=
  if availableLocales.isEmpty then none
  else
    let validLocales := availableLocales.filter (fun locale => locale.length > 0)
    if validLocales.isEmpty then none
    else if defaultLocale ≠ "" ∧ validLocales.contains defaultLocale then some defaultLocale
    else (stableSortStrings validLocales).head?

/-! ## URL normalizer (src/core/normalize/url.ts) -/

/-- JS `path.endsWith('/')`. -/
def hasTrailingSlash (s : String) : Bool := s.data.getLast? = some '/'

/-- JS `path.startsWith('/')`. -/
def hasLeadingSlash (s : String) : Bool := s.data.head? = some '/'

/-- Models `replace(/\/{2,}/g, '/')`: collapses every run of consecutive
slashes into a single slash. -/
def collapseSlashes : List Char → List Char
  | [] => []
  | [x] => [x]
  | x :: y :: rest =>
    if x = '/' ∧ y = '/' then collapseSlashes (y :: rest)
    else x :: collapseSlashes (y :: rest)

/-- One step of the `.`/`..` segment resolution loop of `normalizePath`:
skip `.` and empty parts, `..` pops the previous segment (`segments.pop()`),
anything else is pushed. -/
def segStep (acc : List (List Char)) (part : List Char) : List (List Char) :=
  if part = ['.'] ∨ part = [] then acc
  else if part = ['.', '.'] then acc.dropLast
  else acc ++ [part]

/-- `segments.join('/')`. -/
def joinSlash : List (List Char) → List Char
  | [] => []
  | [s] => s
  | s :: rest => s ++ '/' :: joinSlash rest

/-- The segment pipeline of `normalizePath`: force a leading `/`, collapse
repeated slashes, split on `/` and run the `.`/`..` resolution loop. -/
def normalizePathSegments (path : String) : List (List Char) :=
  (splitOnChar '/'
    (collapseSlashes (if hasLeadingSlash path then path.data else '/' :: path.data))).foldl
    segStep []

/-- `normalizePath` (src/core/normalize/url.ts): forces a leading `/`,
collapses repeated slashes, resolves `.` and `..` segments (never above
root), and optionally preserves the original trailing slash
(`hadTrailingSlash` of the source is inlined in the final condition). -/
def normalizePath (path : String) (preserveTrailingSlash : Bool := false) : String :=
  if path = "" ∨ path = "/" then "/"
  else
    let core := '/' :: joinSlash (normalizePathSegments path)
    if preserveTrailingSlash ∧ (hasTrailingSlash path ∧ path ≠ "/") ∧ core ≠ ['/'] then
      String.mk (core ++ ['/'])
    else String.mk core

/-- A resolved path segment is non-empty, slash-free and neither `.` nor
`..`. -/
def cleanSeg (s : List Char) : Prop :=
  s ≠ [] ∧ '/' ∉ s ∧ s ≠ ['.'] ∧ s ≠ ['.', '.']

/-- Adjacent-character relation forbidding a double slash. -/
def noSlashPair (a b : Char) : Prop := a = '/' → b ≠ '/'

/-- `joinUrlParts` (src/core/normalize/url.ts): filters empty parts, strips
leading/trailing slashes from each part, joins with single slashes and adds
a leading slash. -/
def joinUrlParts (parts : List String) : String :=
  if parts.isEmpty then "/"
  else
    let filteredParts := parts.filter (fun part => part.length > 0)
    if filteredParts.isEmpty then "/"
    else
      let stripped :=
        (filteredParts.map
          (fun part => dropTrailingRun '/' (dropLeadingRun '/' part.data))).filter
          (fun p => p.length > 0)
      let joined := joinSlash stripped
      if joined.length > 0 then String.mk ('/' :: joined) else "/"

/-- Result of the host `new URL(...)` parser, restricted to the fields the
repository reads. `scheme` excludes the trailing `:` (the source's
`protocol` is `scheme ++ ":"`), `port` is `""` when absent, `search`/`hash`
include their `?`/`#` marker or are `""`. -/
structure JsUrl where
  scheme : String
  hostname : String
  port : String
  pathname : String
  search : String
  hash : String
deriving DecidableEq

/-- Modelled builtin: the WHATWG `new URL(s)` parser, restricted to absolute
URLs of the shape `scheme://host[:port][/path][?query][#hash]` (no userinfo,
no IPv6 hosts). Returns `none` where `new URL` would throw. The parser
lowercases scheme and hostname as the host parser does. -/
def parseUrl (s : String) : Option JsUrl :=
  match splitFirst "://".data s.data with
  | none => none
  | some (scheme, rest) =>
    if scheme.isEmpty ∨ ¬ scheme.all (fun c => c ≠ '/' ∧ c ≠ ':' ∧ c ≠ '?' ∧ c ≠ '#') then
      none
    else
      let hostPort := rest.takeWhile (fun c => c ≠ '/' ∧ c ≠ '?' ∧ c ≠ '#')
      let afterHost := rest.dropWhile (fun c => c ≠ '/' ∧ c ≠ '?' ∧ c ≠ '#')
      let hostname := hostPort.takeWhile (· ≠ ':')
      let portChars := (hostPort.dropWhile (· ≠ ':')).drop 1
      if hostname.isEmpty then none
      else if ¬ portChars.all Char.isDigit then none
      else
        let path := afterHost.takeWhile (fun c => c ≠ '?' ∧ c ≠ '#')
        let afterPath := afterHost.dropWhile (fun c => c ≠ '?' ∧ c ≠ '#')
        let search := afterPath.takeWhile (· ≠ '#')
        let hash := afterPath.dropWhile (· ≠ '#')
        some
          { scheme := jsToLower (String.mk scheme)
            hostname := jsToLower (String.mk hostname)
            port := String.mk portChars
            pathname := if path.isEmpty then "/" else String.mk path
            search := String.mk search
            hash := String.mk hash }

/-- Trailing slash policy (src/core/canonical/canonical-from-manifest.ts). -/
inductive TrailingSlashPolicy where
  | always
  | never
  | preserve
deriving DecidableEq

/-- Options for `normalizeUrl` (src/core/normalize/url.ts). -/
structure NormalizeUrlOptions where
  baseUrl : String
  path : String
  trailingSlash : TrailingSlashPolicy
  stripQuery : Bool := true
  stripHash : Bool := true

/-- `normalizeUrl` (src/core/normalize/url.ts): parses the base URL (a
`TypeError` becomes `Except.error`), normalizes the path, applies the
trailing-slash policy, lowercases protocol and hostname, removes default
ports and reassembles the URL. -/
def normalizeUrl (options : NormalizeUrlOptions) : Except String String :=
  match parseUrl options.baseUrl with
  | none => .error ("Invalid baseUrl: " ++ options.baseUrl)
  | some parsedBase =>
    let shouldPreserveTrailingSlash := options.trailingSlash = .preserve
    let normalizedPath := normalizePath options.path shouldPreserveTrailingSlash
    let finalPath :=
      match options.trailingSlash with
      | .always => if ¬ hasTrailingSlash normalizedPath then normalizedPath ++ "/" else normalizedPath
      | .never =>
        if normalizedPath ≠ "/" ∧ hasTrailingSlash normalizedPath then normalizedPath.dropRight 1
        else normalizedPath
      | .preserve => normalizedPath
    let protocol := jsToLower (parsedBase.scheme ++ ":")
    let hostnameBase := jsToLower parsedBase.hostname
    let port := parsedBase.port
    let isDefaultPort :=
      (protocol = "http:" ∧ port = "80") ∨ (protocol = "https:" ∧ port = "443")
    let hostname := if port ≠ "" ∧ ¬ isDefaultPort then hostnameBase ++ ":" ++ port else hostnameBase
    let fullUrl := protocol ++ "//" ++ hostname ++ finalPath
    let fullUrl := if ¬ options.stripQuery ∧ parsedBase.search ≠ "" then fullUrl ++ parsedBase.search else fullUrl
    let fullUrl := if ¬ options.stripHash ∧ parsedBase.hash ≠ "" then fullUrl ++ parsedBase.hash else fullUrl
    .ok fullUrl

/-! ## URL ordering (src/core/normalize/sort.ts) -/

/-- `countPathSegments` (src/core/normalize/sort.ts): number of path segments
of a URL; falls back to counting slash-separated chunks of the raw string
when the URL does not parse. -/
def countPathSegments (url : String) : Nat :=
  match parseUrl url with
  | some parsed =>
    let path := dropTrailingRun '/' (dropLeadingRun '/' parsed.pathname.data)
    if path.isEmpty then 0 else (splitOnChar '/' path).length
  | none =>
    let cleaned := dropTrailingRun '/' (dropLeadingRun '/' url.data)
    if cleaned.isEmpty then 0 else (splitOnChar '/' cleaned).length

/-- The non-strict relation of the `sortUrlsByPath` comparator: fewer path
segments first, ties broken by the deterministic string comparator. -/
def urlLe (a b : String) : Prop :=
  countPathSegments a < countPathSegments b ∨
    (countPathSegments a = countPathSegments b ∧ localeLe a b)

instance : DecidableRel urlLe :=
  fun a b =>
    inferInstanceAs (Decidable (countPathSegments a < countPathSegments b ∨
      (countPathSegments a = countPathSegments b ∧ localeLe a b)))

instance : IsTotal String urlLe :=
  ⟨fun a b => by
    rcases Nat.lt_trichotomy (countPathSegments a) (countPathSegments b) with h | h | h
    · exact Or.inl (Or.inl h)
    · rcases lexLeB_total a.data b.data with h' | h'
      · exact Or.inl (Or.inr ⟨h, h'⟩)
      · exact Or.inr (Or.inr ⟨h.symm, h'⟩)
    · exact Or.inr (Or.inl h)⟩

instance : IsTrans String urlLe :=
  ⟨fun a b c h h' => by
    rcases h with h | ⟨he, hl⟩ <;> rcases h' with h' | ⟨he', hl'⟩
    · exact Or.inl (lt_trans h h')
    · exact Or.inl (he' ▸ h)
    · exact Or.inl (he ▸ h')
    · exact Or.inr ⟨he.trans he', lexLeB_trans _ _ _ hl hl'⟩⟩

instance : IsAntisymm String urlLe :=
  ⟨fun a b h h' => by
    rcases h with h | ⟨he, hl⟩ <;> rcases h' with h' | ⟨he', hl'⟩
    · exact absurd (lt_trans h h') (lt_irrefl _)
    · exact absurd h (he' ▸ lt_irrefl _)
    · exact absurd h' (he ▸ lt_irrefl _)
    · exact congrArg String.mk (lexLeB_antisymm a.data b.data hl hl')⟩

/-- `sortUrlsByPath` (src/core/normalize/sort.ts): sorts URLs by path-segment
count ascending, ties broken by the deterministic string comparator. -/
def sortUrlsByPath (urls : List String) : List String :=
  List.insertionSort urlLe urls

/-- `dedupeUrls` (src/core/canonical/canonical-from-manifest.ts):
`[...new Set(urls)]` keeps the first occurrence of each URL, in order. -/
def dedupeUrls (urls : List String) : List String :=
  urls.foldl (fun acc u => if u ∈ acc then acc else acc ++ [u]) []

/-! ## Canonical URL builder (src/core/canonical/canonical-from-manifest.ts) -/

/-- `LocaleStrategy`: the source union `'prefix' | 'subdomain' | 'none'`. -/
inductive LocaleStrategy where
  | stratPrefix
  | stratSubdomain
  | stratNone
deriving DecidableEq

/-- `RouteStyle`: the source union
`'prefix' | 'suffix' | 'locale-segment' | 'custom'`. -/
inductive RouteStyle where
  | stylePrefix
  | styleSuffix
  | styleLocaleSegment
  | styleCustom
deriving DecidableEq

/-- `ManifestItem` (src/schema/manifest.schema.ts, reconstructed from its
uses): optional fields are `Option`s, `undefined` is `none`. -/
structure ManifestItem where
  slug : String
  locales : Option (List String) := none
  publishedAt : Option String := none
  updatedAt : Option String := none
  priority : Option Nat := none
  title : Option String := none
  description : Option String := none
  canonicalOverride : Option String := none
deriving DecidableEq

/-- `CanonicalPathnameArgs` (src/core/canonical/canonical-from-manifest.ts). -/
structure CanonicalPathnameArgs where
  item : ManifestItem
  sectionName : String
  slug : String
  locale : String
  defaultLocale : String
  sectionPath : String

/-- `Omit<CreateCanonicalUrlsOptions, 'items'>`: the options record consumed
by `createCanonicalUrlForItem`. -/
structure CanonicalItemOptions where
  baseUrl : String
  routePrefix : Option String := none
  defaultLocale : String
  trailingSlash : TrailingSlashPolicy
  localeStrategy : LocaleStrategy
  routeStyle : Option RouteStyle := none
  sectionName : Option String := none
  sectionPath : Option String := none
  pathnameFor : Option (CanonicalPathnameArgs → String) := none

/-- `CreateCanonicalUrlsOptions` (src/core/canonical/canonical-from-manifest.ts). -/
structure CreateCanonicalUrlsOptions extends CanonicalItemOptions where
  items : List ManifestItem

/-- `buildBaseUrlWithSubdomain` (src/core/canonical/canonical-from-manifest.ts):
for the `subdomain` strategy on a non-default locale, rewrites the authority
to `locale.host`; the `try/catch` around `new URL` falls back to the raw
base URL. -/
def buildBaseUrlWithSubdomain (baseUrl locale : String) (strategy : LocaleStrategy)
    (defaultLocale : String) : String :=
  if strategy ≠ .stratSubdomain ∨ locale = defaultLocale then baseUrl
  else
    match parseUrl baseUrl with
    | some parsed =>
      let host :=
        parsed.hostname ++ (if parsed.port ≠ "" then ":" ++ parsed.port else "")
      parsed.scheme ++ ":" ++ "//" ++ locale ++ "." ++ host
    | none => baseUrl

/-- `inferRouteStyleFromLocaleStrategy`
(src/core/canonical/canonical-from-manifest.ts). -/
def inferRouteStyleFromLocaleStrategy (strategy : LocaleStrategy) : RouteStyle :=
  if strategy ≠ .stratPrefix then .styleCustom else .stylePrefix

/-- `buildPathFromRouteStyle` (src/core/canonical/canonical-from-manifest.ts).
The source takes an args object; the fields are passed positionally here. -/
def buildPathFromRouteStyle (routeStyle : RouteStyle)
    (sectionPath slug locale defaultLocale : String) : String :=
  let includeLocale := locale ≠ defaultLocale
  match routeStyle with
  | .styleLocaleSegment => joinUrlParts [sectionPath, locale, slug]
  | .styleSuffix =>
    if includeLocale then joinUrlParts [sectionPath, slug, locale]
    else joinUrlParts [sectionPath, slug]
  | .styleCustom => joinUrlParts [sectionPath, slug]
  | .stylePrefix =>
    if includeLocale then joinUrlParts [locale, sectionPath, slug]
    else joinUrlParts [sectionPath, slug]

/-- `normalizeSectionPath` (src/core/canonical/canonical-from-manifest.ts). -/
def normalizeSectionPath (sectionPath : String) : String :=
  if sectionPath = "" ∨ sectionPath = "/" then ""
  else if hasLeadingSlash sectionPath then sectionPath
  else "/" ++ sectionPath

/-- `normalizeItemSlug` (src/core/canonical/canonical-from-manifest.ts):
forces a leading slash and strips the section path when the slug already
carries it. -/
def normalizeItemSlug (slug sectionPath : String) : String :=
  let normalizedSlug := if hasLeadingSlash slug then slug else "/" ++ slug
  if sectionPath = "" then normalizedSlug
  else if normalizedSlug = sectionPath then "/"
  else
    let withSlash := sectionPath ++ "/"
    if withSlash.data.isPrefixOf normalizedSlug.data then
      let relative := String.mk (normalizedSlug.data.drop withSlash.data.length)
      if relative ≠ "" then "/" ++ relative else "/"
    else normalizedSlug

/-- The body of `createCanonicalUrlForItem` past the `canonicalOverride`
early return (src/core/canonical/canonical-from-manifest.ts lines 174-217). -/
def createCanonicalUrlForItemCore (item : ManifestItem) (options : CanonicalItemOptions) :
    Except String String :=
  let availableLocales := item.locales.getD [options.defaultLocale]
  let canonicalLocale := selectCanonicalLocale options.defaultLocale availableLocales
  let locale := canonicalLocale.getD options.defaultLocale
  let sectionBase :=
    normalizeSectionPath ((options.sectionPath.orElse (fun _ => options.routePrefix)).getD "")
  let effectiveRouteStyle :=
    options.routeStyle.getD (inferRouteStyleFromLocaleStrategy options.localeStrategy)
  let normalizedSlug := normalizeItemSlug item.slug sectionBase
  let customPath : Option String :=
    if effectiveRouteStyle = .styleCustom then
      options.pathnameFor.map (fun f => f
        { item := item
          sectionName := options.sectionName.getD ""
          slug := normalizedSlug
          locale := locale
          defaultLocale := options.defaultLocale
          sectionPath := sectionBase })
    else none
  let resolvedPath := customPath.getD
    (buildPathFromRouteStyle effectiveRouteStyle sectionBase normalizedSlug locale
      options.defaultLocale)
  let effectiveBaseUrl :=
    buildBaseUrlWithSubdomain options.baseUrl locale options.localeStrategy
      options.defaultLocale
  normalizeUrl
    { baseUrl := effectiveBaseUrl
      path := resolvedPath
      trailingSlash := options.trailingSlash
      stripQuery := true
      stripHash := true }

/-- `createCanonicalUrlForItem` (src/core/canonical/canonical-from-manifest.ts):
a truthy string `canonicalOverride` is returned directly (the early return);
otherwise the URL is built from locale, route style and section path. -/
def createCanonicalUrlForItem (item : ManifestItem) (options : CanonicalItemOptions) :
    Except String String :=
  match item.canonicalOverride with
  | some s => if s ≠ "" then .ok s else createCanonicalUrlForItemCore item options
  | none => createCanonicalUrlForItemCore item options

/-- `createCanonicalUrlsFromManifest`
(src/core/canonical/canonical-from-manifest.ts): builds one URL per item,
dedupes and sorts; a thrown `TypeError` propagates (`Except`). -/
def createCanonicalUrlsFromManifest (options : CreateCanonicalUrlsOptions) :
    Except String (List String) :=
  if options.items.isEmpty then .ok []
  else
    (options.items.mapM
      (fun item => createCanonicalUrlForItem item options.toCanonicalItemOptions)).map
      (fun urls => sortUrlsByPath (dedupeUrls urls))

/-! ## Configuration data model (src/schema/config.schema.ts, reconstructed
from its uses in the core) -/

/-- `Array.prototype.join(sep)`. -/
def jsJoin (sep : String) : List String → String
  | [] => ""
  | [x] => x
  | x :: xs => x ++ sep ++ jsJoin sep xs

/-- Line-ending target of `format.lineEndings`. -/
inductive LineEndings where
  | lf
  | crlf
deriving DecidableEq

/-- A value of `config.manifests[key]`: either a plain item array or a
section object. -/
inductive ManifestConfigValue where
  | plainItems (items : List ManifestItem)
  | sectionValue (sectionName : Option String) (items : List ManifestItem)
      (sectionPath : Option String) (routeStyle : Option RouteStyle)
      (defaultLocaleOverride : Option String)
      (pathnameFor : Option (CanonicalPathnameArgs → String))

/-- `site` slice of the configuration. -/
structure SiteConfig where
  baseUrl : String
  defaultLocale : Option String := none

/-- `brand` slice of the configuration. -/
structure BrandConfig where
  name : String
  tagline : Option String := none
  description : Option String := none
  org : Option String := none
  locales : List String

/-- `sections` slice of the configuration. -/
structure SectionsConfig where
  hubs : List String

/-- `contact.social` slice of the configuration. -/
structure SocialConfig where
  twitter : Option String := none
  linkedin : Option String := none
  github : Option String := none

/-- `contact` slice of the configuration. -/
structure ContactConfig where
  email : Option String := none
  social : Option SocialConfig := none
  phone : Option String := none

/-- `policy.restrictedClaims` slice of the configuration. -/
structure RestrictedClaimsConfig where
  enable : Bool
  forbidden : Option (List String) := none
  whitelist : Option (List String) := none

/-- `policy` slice of the configuration. -/
structure PolicyConfig where
  geoPolicy : Option String := none
  citationRules : Option String := none
  restrictedClaims : Option RestrictedClaimsConfig := none

/-- `booking` slice of the configuration. -/
structure BookingConfig where
  url : String
  label : Option String := none

/-- `machineHints` slice of the configuration. -/
structure MachineHintsConfig where
  robots : Option String := none
  sitemap : Option String := none
  llmsTxt : Option String := none
  llmsFullTxt : Option String := none

/-- `format` slice of the configuration. -/
structure FormatConfig where
  trailingSlash : Option TrailingSlashPolicy := none
  lineEndings : Option LineEndings := none
  localeStrategy : Option LocaleStrategy := none

/-- `output.paths` slice of the configuration. -/
structure OutputPaths where
  llmsTxt : String
  llmsFullTxt : String
  citations : Option String := none

/-- `output` slice of the configuration. -/
structure OutputConfig where
  paths : OutputPaths

/-- `LlmsSeoConfig` (src/schema/config.schema.ts). `manifests` is a JS object
whose string keys enumerate in insertion order (`Object.entries`), modelled
as an association list. -/
structure LlmsSeoConfig where
  site : SiteConfig
  brand : BrandConfig
  sections : Option SectionsConfig := none
  manifests : List (String × ManifestConfigValue)
  contact : Option ContactConfig := none
  policy : Option PolicyConfig := none
  booking : Option BookingConfig := none
  machineHints : Option MachineHintsConfig := none
  output : OutputConfig
  format : Option FormatConfig := none

/-! ## Canonical bundle assembler (src/core/canonical/config-manifests.ts) -/

/-- `ResolvedManifestSection` (src/core/canonical/config-manifests.ts). -/
structure ResolvedManifestSection where
  key : String
  sectionName : String
  items : List ManifestItem
  sectionPath : Option String := none
  routeStyle : Option RouteStyle := none
  defaultLocaleOverride : Option String := none
  pathnameFor : Option (CanonicalPathnameArgs → String) := none

/-- `CanonicalManifestEntry` (src/core/canonical/config-manifests.ts). -/
structure CanonicalManifestEntry where
  sectionKey : String
  sectionName : String
  item : ManifestItem
  canonicalUrl : String
deriving DecidableEq

/-- `CanonicalManifestBundle` (src/core/canonical/config-manifests.ts). -/
structure CanonicalManifestBundle where
  canonicalUrls : List String
  manifestItems : List ManifestItem
  entries : List CanonicalManifestEntry
deriving DecidableEq

/-- `normalizeManifestItems` (src/core/canonical/config-manifests.ts): forces
a leading slash on every item slug. -/
def normalizeManifestItems (items : List ManifestItem) : List ManifestItem :=
  items.map (fun item =>
    { item with slug := if hasLeadingSlash item.slug then item.slug else "/" ++ item.slug })

/-- `resolveOneManifestSection` (src/core/canonical/config-manifests.ts).
The conditional spreads (`...(value.sectionPath && { ... })`) keep a field
only when its value is truthy. -/
def resolveOneManifestSection (key : String) (value : ManifestConfigValue) :
    ResolvedManifestSection :=
  match value with
  | .plainItems items =>
    { key := key, sectionName := key, items := normalizeManifestItems items }
  | .sectionValue sectionName items sectionPath routeStyle defaultLocaleOverride pathnameFor =>
    { key := key
      sectionName := sectionName.getD key
      items := normalizeManifestItems items
      sectionPath := if jsTruthyStr sectionPath then sectionPath else none
      routeStyle := routeStyle
      defaultLocaleOverride :=
        if jsTruthyStr defaultLocaleOverride then defaultLocaleOverride else none
      pathnameFor := pathnameFor }

/-- `resolveManifestSections` (src/core/canonical/config-manifests.ts):
`Object.entries(config.manifests)` sorted with
`localeCompare(_, 'en', { sensitivity: 'base', numeric: true })`; the
base-sensitivity (case-insensitive) collation is modelled by codepoint
comparison of the lowercased keys. -/
def resolveManifestSections (config : LlmsSeoConfig) : List ResolvedManifestSection :=
  let manifestEntries :=
    List.insertionSort
      (fun a b => lexLeB (jsToLower a.1).data (jsToLower b.1).data = true)
      config.manifests
  manifestEntries.map (fun kv => resolveOneManifestSection kv.1 kv.2)

/-- The loop body of `createCanonicalBundleFromConfig` for one resolved
section: sort items by the `slug|locales` composite key, then build the
canonical entry of each item. -/
def bundleSectionEntries (config : LlmsSeoConfig) (defaultLocale : String)
    (trailingSlash : TrailingSlashPolicy) (localeStrategy : LocaleStrategy)
    (sec : ResolvedManifestSection) : Except String (List CanonicalManifestEntry) :=
  let sectionDefaultLocale := sec.defaultLocaleOverride.getD defaultLocale
  let sortedItems := sortBy sec.items
    (fun item => item.slug ++ "|" ++ jsJoin "," (item.locales.getD []))
  sortedItems.mapM (fun item =>
    let itemOptions : CanonicalItemOptions :=
      { baseUrl := config.site.baseUrl
        sectionName := some sec.sectionName
        defaultLocale := sectionDefaultLocale
        trailingSlash := trailingSlash
        localeStrategy := localeStrategy
        routePrefix := if jsTruthyStr sec.sectionPath then sec.sectionPath else none
        sectionPath := if jsTruthyStr sec.sectionPath then sec.sectionPath else none
        routeStyle := sec.routeStyle
        pathnameFor := sec.pathnameFor }
    (createCanonicalUrlForItem item itemOptions).map (fun canonicalUrl =>
      { sectionKey := sec.key
        sectionName := sec.sectionName
        item := item
        canonicalUrl := canonicalUrl : CanonicalManifestEntry }))

/-- The tail of `createCanonicalBundleFromConfig` after all entries have been
collected: global entry sort by `canonicalUrl|sectionKey|slug`, dedup + path
sort of the URL list, items in entry order. -/
def mkCanonicalBundle (entries : List CanonicalManifestEntry) : CanonicalManifestBundle :=
  let sortedEntries := sortBy entries
    (fun entry => entry.canonicalUrl ++ "|" ++ entry.sectionKey ++ "|" ++ entry.item.slug)
  { canonicalUrls := sortUrlsByPath (dedupeUrls (sortedEntries.map (·.canonicalUrl)))
    manifestItems := sortedEntries.map (·.item)
    entries := sortedEntries }

/-- `createCanonicalBundleFromConfig` (src/core/canonical/config-manifests.ts). -/
def createCanonicalBundleFromConfig (config : LlmsSeoConfig) :
    Except String CanonicalManifestBundle :=
  let sections := resolveManifestSections config
  let defaultLocale := config.site.defaultLocale.getD (config.brand.locales.head?.getD "en")
  let trailingSlash := (config.format.bind (·.trailingSlash)).getD .never
  let localeStrategy := (config.format.bind (·.localeStrategy)).getD .stratPrefix
  (sections.mapM (bundleSectionEntries config defaultLocale trailingSlash localeStrategy)).map
    (fun entryLists => mkCanonicalBundle entryLists.flatten)

/-! ## Text normalization (src/core/normalize/text.ts) -/

/-- First two replaces of `normalizeLineEndings`:
`replace(/\r\n/g, '\n').replace(/\r/g, '\n')` (CRLF then lone CR to LF). -/
def normalizeToLf : List Char → List Char
  | [] => []
  | '\r' :: '\n' :: rest => '\n' :: normalizeToLf rest
  | '\r' :: rest => '\n' :: normalizeToLf rest
  | c :: rest => c :: normalizeToLf rest

/-- `replace(/\n/g, '\r\n')`. -/
def lfToCrlf : List Char → List Char
  | [] => []
  | '\n' :: rest => '\r' :: '\n' :: lfToCrlf rest
  | c :: rest => c :: lfToCrlf rest

/-- `normalizeLineEndings` (src/core/normalize/text.ts): normalizes all line
endings to `\n`, then converts to the target format. -/
def normalizeLineEndings (text : String) (lineEndings : LineEndings) : String :=
  let normalized := String.mk (normalizeToLf text.data)
  match lineEndings with
  | .crlf => String.mk (lfToCrlf normalized.data)
  | .lf => normalized

/-- Splits on `/\r?\n/` (the separators `\r\n` and `\n`), as
`text.split(/\r?\n/)` does. -/
def splitLinesRNAux : List Char → List Char → List (List Char)
  | [], acc => [acc.reverse]
  | '\r' :: '\n' :: rest, acc => acc.reverse :: splitLinesRNAux rest []
  | '\n' :: rest, acc => acc.reverse :: splitLinesRNAux rest []
  | c :: rest, acc => splitLinesRNAux rest (c :: acc)

/-- JS `s.split("\r\n")`: splits on every occurrence of the two-character
separator. -/
def splitOnCrlf : List Char → List Char → List (List Char)
  | [], acc => [acc.reverse]
  | '\r' :: '\n' :: rest, acc => acc.reverse :: splitOnCrlf rest []
  | c :: rest, acc => splitOnCrlf rest (c :: acc)

/-- JS `String.prototype.trimEnd` on a character list. -/
def jsTrimEndL (l : List Char) : List Char :=
  (l.reverse.dropWhile Char.isWhitespace).reverse

/-- `replace(/  +/g, ' ')`: collapses every run of two or more spaces. -/
def collapseSpaces : List Char → List Char
  | [] => []
  | [x] => [x]
  | x :: y :: rest =>
    if x = ' ' ∧ y = ' ' then collapseSpaces (y :: rest)
    else x :: collapseSpaces (y :: rest)

/-- `normalizeLineWhitespace` (src/core/normalize/text.ts): per line, trims
trailing whitespace, replaces each run of spaces/tabs by the same number of
spaces (equivalently: each tab becomes a space), then collapses runs of two
or more spaces; lines are rejoined with `\n`. -/
def normalizeLineWhitespace (text : String) : String :=
  let lines := splitLinesRNAux text.data []
  let processed := lines.map (fun line =>
    let line := jsTrimEndL line
    let line := line.map (fun c => if c = '\t' then ' ' else c)
    collapseSpaces line)
  jsJoin "\n" (processed.map String.mk)

/-! ## Date model (host `Date` builtin)

`getLastUpdatedDate` (src/core/generate/llms-full-txt.ts) parses item
timestamps with `new Date(value)` and renders the latest one with
`toISOString().slice(0, 10)`. The host `Date` is modelled for ISO-8601 UTC
timestamps (`YYYY-MM-DD` and `YYYY-MM-DDTHH:MM:SS[.mmm]Z`); anything else is
an invalid date (`none`, the source's `NaN` filter). -/

/-- Reads exactly `n` decimal digits, returning their value and the rest. -/
def readDigits : Nat → Nat → List Char → Option (Nat × List Char)
  | 0, acc, l => some (acc, l)
  | _ + 1, _, [] => none
  | n + 1, acc, c :: rest =>
    if c.isDigit then readDigits n (acc * 10 + (c.toNat - 48)) rest else none

/-- Gregorian leap year. -/
def isLeapYear (y : Nat) : Bool :=
  y % 4 = 0 ∧ (y % 100 ≠ 0 ∨ y % 400 = 0)

/-- Days in a month of the proleptic Gregorian calendar. -/
def daysInMonth (y m : Nat) : Nat :=
  if m = 2 then (if isLeapYear y then 29 else 28)
  else if m = 4 ∨ m = 6 ∨ m = 9 ∨ m = 11 then 30
  else 31

/-- Days from the civil date `(y, m, d)` to 1970-01-01 (Hinnant's
`days_from_civil` algorithm). -/
def daysFromCivil (y m d : Nat) : Int :=
  let yi : Int := (y : Int) - (if m ≤ 2 then 1 else 0)
  let era := Int.fdiv yi 400
  let yoe := yi - era * 400
  let mp : Int := (m : Int) + (if 2 < m then -3 else 9)
  let doy := Int.fdiv (153 * mp + 2) 5 + (d : Int) - 1
  let doe := yoe * 365 + Int.fdiv yoe 4 - Int.fdiv yoe 100 + doy
  era * 146097 + doe - 719468

/-- Civil date from days since 1970-01-01 (Hinnant's `civil_from_days`). -/
def civilFromDays (days : Int) : Int × Int × Int :=
  let z := days + 719468
  let era := Int.fdiv z 146097
  let doe := z - era * 146097
  let yoe := Int.fdiv (doe - Int.fdiv doe 1460 + Int.fdiv doe 36524 - Int.fdiv doe 146096) 365
  let y := yoe + era * 400
  let doy := doe - (365 * yoe + Int.fdiv yoe 4 - Int.fdiv yoe 100)
  let mp := Int.fdiv (5 * doy + 2) 153
  let d := doy - Int.fdiv (153 * mp + 2) 5 + 1
  let m := mp + (if mp < 10 then 3 else -9)
  (y + (if m ≤ 2 then 1 else 0), m, d)

/-- Parses the optional time-of-day tail `THH:MM:SS[.mmm]Z` of an ISO
timestamp, in milliseconds. The empty tail is midnight UTC. -/
def parseIsoTime : List Char → Option Nat
  | [] => some 0
  | 'T' :: rest =>
    match readDigits 2 0 rest with
    | none => none
    | some (h, rest) =>
      match rest with
      | ':' :: rest =>
        match readDigits 2 0 rest with
        | none => none
        | some (mi, rest) =>
          match rest with
          | ':' :: rest =>
            match readDigits 2 0 rest with
            | none => none
            | some (se, rest) =>
              let msAndRest : Option (Nat × List Char) :=
                match rest with
                | '.' :: rest => readDigits 3 0 rest
                | _ => some (0, rest)
              match msAndRest with
              | none => none
              | some (ms, rest) =>
                if rest = ['Z'] ∧ h ≤ 23 ∧ mi ≤ 59 ∧ se ≤ 59 then
                  some (((h * 60 + mi) * 60 + se) * 1000 + ms)
                else none
          | _ => none
      | _ => none
  | _ => none

/-- Modelled builtin: `new Date(s).getTime()`, `none` for an invalid date.
Restricted to ISO-8601 UTC timestamps. -/
def jsDateMillis (s : String) : Option Int :=
  match readDigits 4 0 s.data with
  | none => none
  | some (y, rest) =>
    match rest with
    | '-' :: rest =>
      match readDigits 2 0 rest with
      | none => none
      | some (m, rest) =>
        match rest with
        | '-' :: rest =>
          match readDigits 2 0 rest with
          | none => none
          | some (d, rest) =>
            if 1 ≤ m ∧ m ≤ 12 ∧ 1 ≤ d ∧ d ≤ daysInMonth y m then
              match parseIsoTime rest with
              | none => none
              | some timeMs => some (daysFromCivil y m d * 86400000 + (timeMs : Int))
            else none
        | _ => none
    | _ => none

/-- Decimal rendering of a natural number, left padded with zeros. -/
def padNat (width n : Nat) : String :=
  let s := toString n
  if s.length < width then String.mk (List.replicate (width - s.length) '0') ++ s else s

/-- Modelled builtin: `new Date(ms).toISOString().slice(0, 10)` — the UTC
date part of a timestamp. -/
def millisToIsoDate (ms : Int) : String :=
  let days := Int.fdiv ms 86400000
  let ymd := civilFromDays days
  padNat 4 ymd.1.toNat ++ "-" ++ padNat 2 ymd.2.1.toNat ++ "-" ++ padNat 2 ymd.2.2.toNat

/-- The timestamp the loop of `getLastUpdatedDate` pushes for one item:
`updatedAt` when truthy, else `publishedAt` when truthy. -/
def pickTimestamp (item : ManifestItem) : Option String :=
  if jsTruthyStr item.updatedAt then item.updatedAt
  else if jsTruthyStr item.publishedAt then item.publishedAt
  else none

/-- `getLastUpdatedDate` (src/core/generate/llms-full-txt.ts): collects item
timestamps, drops invalid dates, sorts descending by time and renders the
latest as `YYYY-MM-DD`. -/
def getLastUpdatedDate (items : List ManifestItem) : Option String :=
  let timestamps := items.filterMap pickTimestamp
  if timestamps.isEmpty then none
  else
    let parsed := timestamps.filterMap jsDateMillis
    let sorted := List.insertionSort (fun a b : Int => b ≤ a) parsed
    match sorted.head? with
    | none => none
    | some latest => some (millisToIsoDate latest)

/-! ## Hub labels (src/core/generate/llms-full-txt.ts) -/

/-- The fixed label table of `getHubLabel`. -/
def hubLabels : List (String × String) :=
  [("/services", "Services overview"), ("/blog", "Blog posts"),
   ("/projects", "Our projects"), ("/cases", "Case studies"),
   ("/contact", "Contact us"), ("/about", "About us"),
   ("/products", "Products"), ("/docs", "Documentation"),
   ("/faq", "Frequently asked questions"), ("/pricing", "Pricing information"),
   ("/team", "Our team"), ("/careers", "Career opportunities"),
   ("/news", "News and updates"), ("/resources", "Resources"),
   ("/support", "Support center")]

/-- `replace(/\b\w/g, toUpperCase)`: uppercases every character that starts a
`\w` word (ASCII letters, digits, underscore). The flag tracks whether the
previous character was a word character. -/
def capitalizeWordStarts : Bool → List Char → List Char
  | _, [] => []
  | prevWord, c :: rest =>
    let isWord := c.isAlphanum ∨ c = '_'
    (if isWord ∧ ¬prevWord then c.toUpper else c) :: capitalizeWordStarts isWord rest

/-- `formatHubLabel` (src/core/generate/llms-full-txt.ts): strips one leading
slash, replaces `-`/`_` by spaces and capitalizes word starts. -/
def formatHubLabel (hub : String) : String :=
  let clean := match hub.data with
    | '/' :: rest => rest
    | l => l
  let replaced := clean.map (fun c => if c = '-' ∨ c = '_' then ' ' else c)
  String.mk (capitalizeWordStarts false replaced)

/-- `getHubLabel` (src/core/generate/llms-full-txt.ts). -/
def getHubLabel (hub : String) : String :=
  match hubLabels.find? (fun p => p.1 = hub) with
  | some p => p.2
  | none => formatHubLabel hub

/-! ## llms-full.txt generator (src/core/generate/llms-full-txt.ts) -/

/-- One entry of `CreateLlmsFullTxtOptions.manifestEntries`. -/
structure ManifestEntryLite where
  item : ManifestItem
  canonicalUrl : String
  sectionName : String
deriving DecidableEq

/-- `CreateLlmsFullTxtOptions` (src/core/generate/llms-full-txt.ts). -/
structure CreateLlmsFullTxtOptions where
  config : LlmsSeoConfig
  canonicalUrls : List String
  manifestItems : List ManifestItem
  manifestEntries : Option (List ManifestEntryLite) := none

/-- `CreateLlmsFullTxtResult` (src/core/generate/llms-full-txt.ts). -/
structure CreateLlmsFullTxtResult where
  content : String
  byteSize : Nat
  lineCount : Nat
deriving DecidableEq

/-- The `## Policies` block of `createLlmsFullTxt` (pushed only when
`hasPolicies`). -/
def llmsFullPolicyLines (config : LlmsSeoConfig) : List String :=
  let geoPolicy := config.policy.bind (·.geoPolicy)
  let citationRules := config.policy.bind (·.citationRules)
  let restrictedClaims := config.policy.bind (·.restrictedClaims)
  let pl := ["## Policies", ""]
  let pl :=
    if jsTruthyStr geoPolicy then pl ++ ["### GEO Policy", geoPolicy.getD "", ""] else pl
  let pl :=
    if jsTruthyStr citationRules then pl ++ ["### Citation Rules", citationRules.getD "", ""]
    else pl
  match restrictedClaims with
  | none => pl
  | some rc =>
    let pl := pl ++ ["### Restricted Claims",
      "Status: " ++ (if rc.enable then "Enabled" else "Disabled")]
    let pl :=
      match rc.forbidden with
      | some f => if f.length > 0 then pl ++ ["Forbidden terms: " ++ jsJoin ", " f] else pl
      | none => pl
    let pl :=
      match rc.whitelist with
      | some w => if w.length > 0 then pl ++ ["Exceptions: " ++ jsJoin ", " w] else pl
      | none => pl
    pl ++ [""]

/-- The `## Contact` block of `createLlmsFullTxt` (pushed only when
`hasContact`). -/
def llmsFullContactLines (config : LlmsSeoConfig) : List String :=
  let email := config.contact.bind (·.email)
  let phone := config.contact.bind (·.phone)
  let social := config.contact.bind (·.social)
  let twitter := social.bind (·.twitter)
  let linkedin := social.bind (·.linkedin)
  let github := social.bind (·.github)
  let pl := ["## Contact", ""]
  let pl := if jsTruthyStr email then pl ++ ["- Email: " ++ email.getD ""] else pl
  let pl := if jsTruthyStr phone then pl ++ ["- Phone: " ++ phone.getD ""] else pl
  let pl := if jsTruthyStr twitter then pl ++ ["- Twitter: " ++ twitter.getD ""] else pl
  let pl := if jsTruthyStr linkedin then pl ++ ["- LinkedIn: " ++ linkedin.getD ""] else pl
  let pl := if jsTruthyStr github then pl ++ ["- GitHub: " ++ github.getD ""] else pl
  let pl :=
    match config.booking with
    | some booking =>
      if booking.url ≠ "" then
        pl ++ ["- Booking: " ++ booking.url ++ " (" ++ booking.label.getD "Book consultation" ++ ")"]
      else pl
    | none => pl
  pl ++ [""]

/-- The `## Machine Hints` block of `createLlmsFullTxt` (pushed only when
`hasMachineHints`). -/
def llmsFullMachineHintLines (config : LlmsSeoConfig) : List String :=
  let robots := config.machineHints.bind (·.robots)
  let sitemap := config.machineHints.bind (·.sitemap)
  let llmsTxtHint := config.machineHints.bind (·.llmsTxt)
  let llmsFullTxtHint := config.machineHints.bind (·.llmsFullTxt)
  let pl := ["## Machine Hints", ""]
  let pl := if jsTruthyStr robots then pl ++ ["- robots.txt: " ++ robots.getD ""] else pl
  let pl := if jsTruthyStr sitemap then pl ++ ["- sitemap.xml: " ++ sitemap.getD ""] else pl
  let pl := if jsTruthyStr llmsTxtHint then pl ++ ["- llms.txt: " ++ llmsTxtHint.getD ""] else pl
  let pl :=
    if jsTruthyStr llmsFullTxtHint then pl ++ ["- llms-full.txt: " ++ llmsFullTxtHint.getD ""]
    else pl
  pl ++ [""]

/-- The `## Sitemap` block of `createLlmsFullTxt` (pushed when there are hubs
or manifest items). -/
def llmsFullSitemapLines (options : CreateLlmsFullTxtOptions) (hubs : List String) :
    List String :=
  let config := options.config
  let pl := ["## Sitemap", ""]
  let pl :=
    if hubs.length > 0 then
      pl ++ (sortStrings hubs).map
        (fun hub => "- [" ++ hub ++ "](" ++ hub ++ ") - " ++ getHubLabel hub)
    else pl
  let useEntries :=
    match options.manifestEntries with
    | some es => decide (es.length > 0)
    | none => false
  let pl :=
    if useEntries then
      let es := options.manifestEntries.getD []
      let sortedEntries := sortBy es (fun entry => entry.item.slug ++ "|" ++ entry.canonicalUrl)
      pl ++ sortedEntries.map (fun entry =>
        let title := entry.item.title.getD entry.item.slug
        let locales :=
          match entry.item.locales with
          | some ls => jsJoin ", " ls
          | none => config.brand.locales.head?.getD "en"
        "- [" ++ title ++ "](" ++ entry.canonicalUrl ++ ") (" ++ locales ++ ")")
    else if options.manifestItems.length > 0 then
      let sortedItems := sortBy options.manifestItems (·.slug)
      pl ++ sortedItems.map (fun item =>
        let url := item.canonicalOverride.getD (config.site.baseUrl ++ item.slug)
        let title := item.title.getD item.slug
        let locales :=
          match item.locales with
          | some ls => jsJoin ", " ls
          | none => config.brand.locales.head?.getD "en"
        "- [" ++ title ++ "](" ++ url ++ ") (" ++ locales ++ ")")
    else pl
  pl ++ [""]

/-- `createLlmsFullTxt` (src/core/generate/llms-full-txt.ts): assembles the
full-context document from the configuration and the resolved bundle data,
then normalizes whitespace and line endings as the final step. -/
def createLlmsFullTxt (options : CreateLlmsFullTxtOptions) : CreateLlmsFullTxtResult :=
  let config := options.config
  let lineEndings := (config.format.bind (·.lineEndings)).getD .lf
  let lines : List String := ["# " ++ config.brand.name ++ " - Full LLM Context", ""]
  let lines :=
    if jsTruthyStr config.brand.tagline then lines ++ ["> " ++ config.brand.tagline.getD "", ""]
    else lines
  let lines :=
    if jsTruthyStr config.brand.description then lines ++ [config.brand.description.getD "", ""]
    else lines
  let lines :=
    if jsTruthyStr config.brand.org then lines ++ ["Organization: " ++ config.brand.org.getD ""]
    else lines
  let lines := lines ++ ["Locales: " ++ jsJoin ", " config.brand.locales]
  let lastUpdated := getLastUpdatedDate options.manifestItems
  let lines :=
    if jsTruthyStr lastUpdated then lines ++ ["Last Updated: " ++ lastUpdated.getD ""]
    else lines
  let lines := lines ++ [""]
  let lines :=
    if options.canonicalUrls.length > 0 then
      lines ++ ["## All Canonical URLs", ""] ++
        (sortStrings options.canonicalUrls).map (fun url => "- " ++ url) ++ [""]
    else lines
  let hasPolicies :=
    jsTruthyStr (config.policy.bind (·.geoPolicy)) ∨
      jsTruthyStr (config.policy.bind (·.citationRules)) ∨
      (config.policy.bind (·.restrictedClaims)).isSome
  let lines := if hasPolicies then lines ++ llmsFullPolicyLines config else lines
  let hasContact :=
    jsTruthyStr (config.contact.bind (·.email)) ∨
      jsTruthyStr (config.contact.bind (·.phone)) ∨
      jsTruthyStr ((config.contact.bind (·.social)).bind (·.twitter)) ∨
      jsTruthyStr ((config.contact.bind (·.social)).bind (·.linkedin)) ∨
      jsTruthyStr ((config.contact.bind (·.social)).bind (·.github)) ∨
      jsTruthyStr (config.booking.map (·.url))
  let lines := if hasContact then lines ++ llmsFullContactLines config else lines
  let hasMachineHints :=
    jsTruthyStr (config.machineHints.bind (·.robots)) ∨
      jsTruthyStr (config.machineHints.bind (·.sitemap)) ∨
      jsTruthyStr (config.machineHints.bind (·.llmsTxt)) ∨
      jsTruthyStr (config.machineHints.bind (·.llmsFullTxt))
  let lines := if hasMachineHints then lines ++ llmsFullMachineHintLines config else lines
  let hubs := (config.sections.map (·.hubs)).getD []
  let lines :=
    if hubs.length > 0 ∨ options.manifestItems.length > 0 then
      lines ++ llmsFullSitemapLines options hubs
    else lines
  let content := jsJoin "\n" lines
  let content := normalizeLineWhitespace content
  let content := normalizeLineEndings content lineEndings
  let finalLines :=
    match lineEndings with
    | .crlf => splitOnCrlf content.data []
    | .lf => splitOnChar '\n' content.data
  { content := content
    byteSize := content.utf8ByteSize
    lineCount := finalLines.length }

/-! ## Citations generator (src/core/generate/citations.ts) -/

/-- `CitationSource` (src/core/generate/citations.ts). The source field
`section` is named `sectionLabel` here (`section` is a Lean keyword). -/
structure CitationSource where
  url : String
  priority : Nat
  sectionLabel : String
  locale : String
  publishedAt : Option String := none
  updatedAt : Option String := none
  title : Option String := none
deriving DecidableEq

/-- `CitationsSite` (src/core/generate/citations.ts). -/
structure CitationsSite where
  baseUrl : String
  name : String
deriving DecidableEq

/-- `CitationsPolicy` (src/core/generate/citations.ts). -/
structure CitationsPolicy where
  restrictedClaimsEnabled : Bool
  geoPolicy : Option String := none
  citationRules : Option String := none
deriving DecidableEq

/-- `CitationsJson` (src/core/generate/citations.ts). -/
structure CitationsJson where
  version : String
  generated : String
  site : CitationsSite
  sources : List CitationSource
  policy : CitationsPolicy
deriving DecidableEq

/-- `CreateCitationsJsonOptions` (src/core/generate/citations.ts). -/
structure CreateCitationsJsonOptions where
  config : LlmsSeoConfig
  manifestItems : List ManifestItem
  sectionName : String
  fixedTimestamp : Option String := none

/-- The comparator relation of the citation source sort: priority descending,
then URL ascending with the deterministic comparator. -/
def citationLe (a b : CitationSource) : Prop :=
  b.priority < a.priority ∨ (a.priority = b.priority ∧ localeLe a.url b.url)

instance : DecidableRel citationLe :=
  fun a b =>
    inferInstanceAs (Decidable (b.priority < a.priority ∨
      (a.priority = b.priority ∧ localeLe a.url b.url)))

/-- `createCitationsJson` (src/core/generate/citations.ts). The one impure
expression of the source, `new Date().toISOString()`, is passed in as the
explicit `now` argument; it is used only when `fixedTimestamp` is absent. -/
def createCitationsJson (options : CreateCitationsJsonOptions) (now : String) :
    CitationsJson :=
  let config := options.config
  let sources := options.manifestItems.map (fun item =>
    let url := item.canonicalOverride.getD (config.site.baseUrl ++ item.slug)
    let defaultLocale := config.site.defaultLocale.getD (config.brand.locales.head?.getD "en")
    { url := url
      priority := item.priority.getD 50
      sectionLabel := options.sectionName
      locale := (item.locales.bind (·.head?)).getD defaultLocale
      publishedAt := if jsTruthyStr item.publishedAt then item.publishedAt else none
      updatedAt := if jsTruthyStr item.updatedAt then item.updatedAt else none
      title := if jsTruthyStr item.title then item.title else none : CitationSource })
  let sortedSources := List.insertionSort citationLe sources
  let policy : CitationsPolicy :=
    { restrictedClaimsEnabled :=
        ((config.policy.bind (·.restrictedClaims)).map (·.enable)).getD false
      geoPolicy :=
        if jsTruthyStr (config.policy.bind (·.geoPolicy)) then config.policy.bind (·.geoPolicy)
        else none
      citationRules :=
        if jsTruthyStr (config.policy.bind (·.citationRules)) then
          config.policy.bind (·.citationRules)
        else none }
  { version := "1.0"
    generated := options.fixedTimestamp.getD now
    site := { baseUrl := config.site.baseUrl, name := config.brand.name }
    sources := sortedSources
    policy := policy }

/-- JSON string escaping of one character (`JSON.stringify` on strings). -/
def jsonEscapeChar (c : Char) : List Char :=
  if c = '"' then ['\\', '"']
  else if c = '\\' then ['\\', '\\']
  else if c = '\n' then ['\\', 'n']
  else if c = '\r' then ['\\', 'r']
  else if c = '\t' then ['\\', 't']
  else if c = '\x08' then ['\\', 'b']
  else if c = '\x0c' then ['\\', 'f']
  else if c.toNat < 32 then
    let hexDigit := fun (n : Nat) => if n < 10 then Char.ofNat (48 + n) else Char.ofNat (87 + n)
    ['\\', 'u', '0', '0', hexDigit (c.toNat / 16), hexDigit (c.toNat % 16)]
  else [c]

/-- A JSON string literal (quoted, escaped). -/
def jsonStr (s : String) : String :=
  String.mk ('"' :: (s.data.flatMap jsonEscapeChar) ++ ['"'])

/-- JSON boolean literal. -/
def jsonBool : Bool → String
  | true => "true"
  | false => "false"

/-- One element of the `sources` array as rendered by
`JSON.stringify(_, null, 2)` at depth 2; optional fields appear only when
present, in object-literal insertion order. -/
def renderCitationSource (s : CitationSource) : String :=
  let fields :=
    [("url", jsonStr s.url), ("priority", toString s.priority),
     ("section", jsonStr s.sectionLabel), ("locale", jsonStr s.locale)] ++
    (match s.publishedAt with | some p => [("publishedAt", jsonStr p)] | none => []) ++
    (match s.updatedAt with | some u => [("updatedAt", jsonStr u)] | none => []) ++
    (match s.title with | some t => [("title", jsonStr t)] | none => [])
  "    \x7b\n" ++
    jsJoin ",\n" (fields.map (fun f => "      " ++ jsonStr f.1 ++ ": " ++ f.2)) ++
    "\n    \x7d"

/-- `createCitationsJsonString` (src/core/generate/citations.ts):
`JSON.stringify(citations, null, 2)`, with the stable key order of the
object literals of `createCitationsJson`. -/
def createCitationsJsonString (options : CreateCitationsJsonOptions) (now : String) :
    String :=
  let c := createCitationsJson options now
  let sourcesStr :=
    if c.sources.isEmpty then "[]"
    else "[\n" ++ jsJoin ",\n" (c.sources.map renderCitationSource) ++ "\n  ]"
  let policyFields :=
    [("restrictedClaimsEnabled", jsonBool c.policy.restrictedClaimsEnabled)] ++
    (match c.policy.geoPolicy with | some g => [("geoPolicy", jsonStr g)] | none => []) ++
    (match c.policy.citationRules with
     | some r => [("citationRules", jsonStr r)]
     | none => [])
  "\x7b\n" ++
    "  \"version\": " ++ jsonStr c.version ++ ",\n" ++
    "  \"generated\": " ++ jsonStr c.generated ++ ",\n" ++
    "  \"site\": \x7b\n    \"baseUrl\": " ++ jsonStr c.site.baseUrl ++
      ",\n    \"name\": " ++ jsonStr c.site.name ++ "\n  \x7d,\n" ++
    "  \"sources\": " ++ sourcesStr ++ ",\n" ++
    "  \"policy\": \x7b\n" ++
    jsJoin ",\n" (policyFields.map (fun f => "    " ++ jsonStr f.1 ++ ": " ++ f.2)) ++
    "\n  \x7d\n" ++
  "\x7d"

/-! ## Check issues (src/core/check/issues.ts) -/

/-- `IssueSeverity` (src/core/check/issues.ts). -/
inductive IssueSeverity where
  | error
  | warning
  | info
deriving DecidableEq

/-- `CheckIssueCode` (src/core/check/issues.ts). The `code` field is only
declared with this union type: `lintFile` casts lint-rule id strings into it
(`issue.id as CheckIssueCode`), which at runtime keeps the string, so a
runtime code outside the declared union is modelled by the `other`
constructor carrying that string. -/
inductive CheckIssueCode where
  | file_missing
  | file_mismatch
  | file_empty
  | forbidden_term
  | empty_section
  | duplicate_url
  | invalid_url
  | config_invalid
  | other (id : String)
deriving DecidableEq

/-- `CheckIssue` (src/core/check/issues.ts). -/
structure CheckIssue where
  path : String
  code : CheckIssueCode
  message : String
  severity : IssueSeverity
  line : Option Nat := none
  context : Option String := none
deriving DecidableEq

/-- `createCheckIssue` (src/core/check/issues.ts). -/
def createCheckIssue (severity : IssueSeverity) (code : CheckIssueCode)
    (message : String) (path : String := "") (context : Option String := none) :
    CheckIssue :=
  { path := path, code := code, message := message, severity := severity,
    context := context }

/-! ## Content comparison (src/core/check/checker.ts) -/

/-- `CompareResult` (src/core/check/checker.ts). The source field `match` is
named `matched` here (`match` is a Lean keyword). -/
structure CompareResult where
  matched : Bool
  context : String
deriving DecidableEq

/-- The context entries the diff loop of `compareContent` emits for one
differing line index `i` (0-based): an `Expected line` entry when the
expected file has an `i`-th line, then an `Actual line` entry when the
actual file does. -/
def diffEntryFor (expectedLines actualLines : List String) (i : Nat) : List String :=
  (match expectedLines[i]? with
   | some s => ["Expected line " ++ toString (i + 1) ++ ": \"" ++ s ++ "\""]
   | none => []) ++
  (match actualLines[i]? with
   | some s => ["Actual line " ++ toString (i + 1) ++ ": \"" ++ s ++ "\""]
   | none => [])

/-- The diff loop of `compareContent`: walks the line indices, emits the
context entries of each differing index, and stops once `budget` differing
indices have been reported. -/
def diffLoop (expectedLines actualLines : List String) :
    List Nat → Nat → List String
  | _, 0 => []
  | [], _ + 1 => []
  | i :: is, b + 1 =>
    if expectedLines[i]? ≠ actualLines[i]? then
      diffEntryFor expectedLines actualLines i ++ diffLoop expectedLines actualLines is b
    else diffLoop expectedLines actualLines is (b + 1)

/-- `compareContent` (src/core/check/checker.ts): exact equality yields a
match with empty context; otherwise a line-by-line diff reports up to
`maxContextLines` differing line indices. -/
def compareContent (expected actual : String) (maxContextLines : Nat := 5) :
    CompareResult :=
  if expected = actual then { matched := true, context := "" }
  else
    let expectedLines := jsSplitChar expected '\n'
    let actualLines := jsSplitChar actual '\n'
    let maxLines := max expectedLines.length actualLines.length
    let contextLines :=
      diffLoop expectedLines actualLines (List.range maxLines) maxContextLines
    { matched := false, context := jsJoin "\n" contextLines }

/-- The differing 0-based line indices of two line lists, up to `maxLines`. -/
def diffIndices (expectedLines actualLines : List String) (maxLines : Nat) : List Nat :=
  (List.range maxLines).filter (fun i => expectedLines[i]? ≠ actualLines[i]?)

/-! ## File verification (src/core/check/checker.ts, `checkFilesAgainstExpected`)

The file system is passed explicitly: `fs path` is what `readFileContent`
resolves to (`none` when the read fails). -/

/-- `readFileContent` (src/core/check/checker.ts) over the explicit
file-system model. -/
def readFileContent (fs : String → Option String) (filePath : String) : Option String :=
  fs filePath

/-- The per-file block of `checkFilesAgainstExpected` (the source repeats
this block verbatim for `llms.txt` and `llms-full.txt`): missing file →
`error:file_missing`; empty file → `warning:file_empty`; otherwise compare
against the expected content and emit `error:file_mismatch` on divergence. -/
def checkOneExpectedFile (fs : String → Option String) (path expected : String)
    (maxContextLines : Nat) : List CheckIssue :=
  match readFileContent fs path with
  | none =>
    [createCheckIssue .error .file_missing ("Required file does not exist: " ++ path) path]
  | some content =>
    if content = "" then
      [createCheckIssue .warning .file_empty ("File is empty: " ++ path) path]
    else
      let compareResult := compareContent expected content maxContextLines
      if ¬ compareResult.matched then
        [createCheckIssue .error .file_mismatch "Content differs from expected output" path
          (some compareResult.context)]
      else []

/-- `checkFilesAgainstExpected` (src/core/check/checker.ts): checks the two
required files independently and concatenates their issues. -/
def checkFilesAgainstExpected (fs : String → Option String)
    (llmsTxtPath : String) (expectedLlmsTxt : String)
    (llmsFullTxtPath : String) (expectedLlmsFullTxt : String)
    (maxContextLines : Nat := 5) : List CheckIssue :=
  checkOneExpectedFile fs llmsTxtPath expectedLlmsTxt maxContextLines ++
    checkOneExpectedFile fs llmsFullTxtPath expectedLlmsFullTxt maxContextLines

/-! ## Forbidden-term linter (src/core/check/rules-linter.ts) -/

/-- JS `String.prototype.trim`. -/
def jsTrim (s : String) : String :=
  String.mk (jsTrimEndL (s.data.dropWhile Char.isWhitespace))

/-- JS `s.startsWith(p)`. -/
def jsStartsWith (s p : String) : Bool :=
  p.data.isPrefixOf s.data

/-- JS `s.substring(0, n)`. -/
def jsSubstring0 (s : String) (n : Nat) : String :=
  String.mk (s.data.take n)

/-- The issue `checkForbiddenTerms` pushes for term `term` on 0-based line
`i` whose trimmed text is `trimmed`. -/
def mkForbiddenIssue (trimmed : String) (i : Nat) (term : String) : CheckIssue :=
  { path := ""
    code := .forbidden_term
    message := "Term \"" ++ term ++ "\" is forbidden by policy"
    severity := .warning
    line := some (i + 1)
    context := some (jsSubstring0 trimmed 100) }

/-- Whether `checkForbiddenTerms` skips a line as a policy-definition line:
its trimmed, lowercased text starts with `forbidden terms:` or
`exceptions:`. -/
def isPolicyDefinitionLine (line : String) : Bool :=
  let loweredTrimmed := jsToLower (jsTrim line)
  jsStartsWith loweredTrimmed "forbidden terms:" || jsStartsWith loweredTrimmed "exceptions:"

/-- Whether a whitelist phrase suppresses `term` on `line` (both already
lowercased): some whitelist entry occurs in the line and itself contains the
term. -/
def isWhitelistedOn (whitelistLower : List String) (lineLower termLower : String) : Bool :=
  whitelistLower.any (fun w => jsIncludes lineLower w && jsIncludes w termLower)

/-- `checkForbiddenTerms` (src/core/check/rules-linter.ts): per line and per
forbidden term, a case-insensitive substring match yields one
`forbidden_term` issue, unless the line is a policy-definition line or a
whitelist phrase containing the term occurs on the line. -/
def checkForbiddenTerms (content : String) (forbidden : List String)
    (whitelist : List String := []) : List CheckIssue :=
  (jsSplitChar content '\n').enum.flatMap (fun p =>
    if isPolicyDefinitionLine p.2 then []
    else
      forbidden.flatMap (fun term =>
        if jsIncludes (jsToLower p.2) (jsToLower term) then
          if isWhitelistedOn (whitelist.map jsToLower) (jsToLower p.2) (jsToLower term) then []
          else [mkForbiddenIssue (jsTrim p.2) p.1 term]
        else []))

/-! ## Lint rules (src/core/check/rules-linter.ts) and generated-file checks
(src/core/check/checker.ts, `checkGeneratedFiles`) -/

/-- `IssueCategory` (src/core/check/issues.ts). The source value
`structure` is named `structureCat` here (`structure` is a Lean keyword). -/
inductive IssueCategory where
  | content
  | structureCat
  | accessibility
  | performance
  | metadata
deriving DecidableEq

/-- Legacy `Issue` (src/core/check/issues.ts). -/
structure Issue where
  id : String
  pageId : String
  severity : IssueSeverity
  message : String
  category : Option IssueCategory := none
  suggestion : Option String := none
  line : Option Nat := none
  column : Option Nat := none
deriving DecidableEq

/-- `createIssue` (src/core/check/issues.ts): spreads the overrides over the
`category` default (`content`); the call sites embedded here never override
`category` and never set `suggestion`. -/
def createIssue (id pageId : String) (severity : IssueSeverity) (message : String)
    (line : Option Nat := none) (column : Option Nat := none) : Issue :=
  { id := id, pageId := pageId, severity := severity, message := message,
    category := some IssueCategory.content, line := line, column := column }

/-- Modelled builtin: the JS regex class `\s` (the ECMAScript white-space
and line-terminator characters). -/
def jsIsSpace (c : Char) : Bool :=
  c == ' ' || c == '\t' || c == '\n' || c == '\x0b' || c == '\x0c' || c == '\r' ||
    c == '\u00a0' || c == '\u1680' ||
    (decide ('\u2000' ≤ c) && decide (c ≤ '\u200a')) ||
    c == '\u2028' || c == '\u2029' || c == '\u202f' || c == '\u205f' ||
    c == '\u3000' || c == '\ufeff'

/-- Modelled builtin: the JS regex `.` (without the `s` flag): any character
except the four line terminators. -/
def isDotChar (c : Char) : Bool :=
  !(c == '\n' || c == '\r' || c == '\u2028' || c == '\u2029')

/-- The heading pattern `headingMatch` of `checkEmptySections`
(src/core/check/rules-linter.ts): one to six leading `#` characters, at
least one `\s` character, then a nonempty capture of `.` characters reaching
the end of the line. Greediness resolves as follows: the `#` run must be the
whole leading run (the character after it must be whitespace, never another
`#`), and the whitespace-then-capture split takes the longest whitespace run
that leaves a nonempty tail, i.e. the capture is the rest after
`min m (rest.length - 1)` whitespace characters, `m` being the maximal
whitespace run; the match succeeds only when every capture character is
matched by `.` (which excludes line terminators such as a stray carriage
return). Returns (heading level, captured group 2). -/
def matchFullHeading (line : String) : Option (Nat × String) :=
  let hashes := line.data.takeWhile (fun c => c == '#')
  let rest := line.data.dropWhile (fun c => c == '#')
  let m := (rest.takeWhile jsIsSpace).length
  let tail := rest.drop (min m (rest.length - 1))
  if 1 ≤ hashes.length ∧ hashes.length ≤ 6 ∧ 1 ≤ m ∧ 2 ≤ rest.length ∧
      tail.all isDotChar = true then
    some (hashes.length, String.mk tail)
  else none

/-- The heading pattern of `lintHeadingStructure`: one to six leading `#`
characters followed by one `\s` character; returns the heading level. -/
def matchHeadingLevel (line : String) : Option Nat :=
  let hashes := line.data.takeWhile (fun c => c == '#')
  match line.data.dropWhile (fun c => c == '#') with
  | c :: _ =>
    if 1 ≤ hashes.length ∧ hashes.length ≤ 6 ∧ jsIsSpace c = true then
      some hashes.length
    else none
  | [] => none

/-- The list-marker pattern of `lintListMarkers`: optional leading
whitespace, the marker character, then one `\s` character. -/
def startsWithMarker (marker : Char) (line : String) : Bool :=
  match line.data.dropWhile jsIsSpace with
  | c :: d :: _ => c == marker && jsIsSpace d
  | _ => false

/-- One attempt of the markdown-link regex of `lintUrlFormat` and
`checkDuplicateUrls` at the start of the character list: a `[`, a possibly
empty run without `]`, then `](`, a nonempty run without `)`, and a closing
`)`. Greediness is exact here: each negated class runs to the first closing
character. Returns the captured URL and the total match length. -/
def tryLinkAt : List Char → Option (String × Nat)
  | '[' :: cs =>
    let text := cs.takeWhile (fun c => !(c == ']'))
    (match cs.drop text.length with
     | ']' :: '(' :: ds =>
       let url := ds.takeWhile (fun c => !(c == ')'))
       (match url, ds.drop url.length with
        | _ :: _, ')' :: _ => some (String.mk url, text.length + url.length + 4)
        | _, _ => none)
     | _ => none)
  | _ => none

/-- The global scan of the markdown-link regex over one line: at each
position take a match if one starts there and continue after it, else
advance one character. Each step consumes at least one character, so
`line.length` fuel never runs out; returns (0-based match index, URL) pairs
in order. -/
def scanLinksAux : Nat → List Char → Nat → List (Nat × String)
  | 0, _, _ => []
  | _ + 1, [], _ => []
  | fuel + 1, c :: cs, i =>
    match tryLinkAt (c :: cs) with
    | some r => (i, r.1) :: scanLinksAux fuel (List.drop r.2 (c :: cs)) (i + r.2)
    | none => scanLinksAux fuel cs (i + 1)

/-- All markdown-link matches of one line, with match index and URL. -/
def scanLinks (line : String) : List (Nat × String) :=
  scanLinksAux line.data.length line.data 0

/-- The issue `lintHeadingStructure` pushes at 0-based line `i` for a jump
from `prevLevel` to `level`. -/
def mkHeadingSkipIssue (filePath : String) (prevLevel level i : Nat) : Issue :=
  createIssue "heading-skip" filePath .warning
    ("Heading level skipped: h" ++ toString prevLevel ++ " to h" ++ toString level)
    (some (i + 1))

/-- The line loop of `lintHeadingStructure` with its `prevLevel` state. -/
def lintHeadingStructureAux (filePath : String) :
    List (Nat × String) → Nat → List Issue
  | [], _ => []
  | p :: rest, prevLevel =>
    match matchHeadingLevel p.2 with
    | some level =>
      (if prevLevel + 1 < level ∧ 0 < prevLevel then
        [mkHeadingSkipIssue filePath prevLevel level p.1]
      else []) ++ lintHeadingStructureAux filePath rest level
    | none => lintHeadingStructureAux filePath rest prevLevel

/-- `lintHeadingStructure` (src/core/check/rules-linter.ts). -/
def lintHeadingStructure (content filePath : String) : List Issue :=
  lintHeadingStructureAux filePath (jsSplitChar content '\n').enum 0

/-- `lintUrlFormat` (src/core/check/rules-linter.ts): flags markdown-link
URLs that do not start with `/`, `http` or `#`. -/
def lintUrlFormat (content filePath : String) : List Issue :=
  (jsSplitChar content '\n').enum.flatMap (fun p =>
    (scanLinks p.2).flatMap (fun m =>
      if m.2 != "" && !(jsStartsWith m.2 "/") && !(jsStartsWith m.2 "http") &&
          !(jsStartsWith m.2 "#") then
        [createIssue "invalid-url" filePath .warning ("Invalid URL format: " ++ m.2)
          (some (p.1 + 1)) (some (m.1 + 1))]
      else []))

/-- `lintTrailingWhitespace` (src/core/check/rules-linter.ts): flags lines
ending in a space character. -/
def lintTrailingWhitespace (content filePath : String) : List Issue :=
  (jsSplitChar content '\n').enum.flatMap (fun p =>
    if p.2.data.getLast? == some ' ' then
      [createIssue "trailing-whitespace" filePath .info "Line has trailing whitespace"
        (some (p.1 + 1))]
    else [])

/-- `lintListMarkers` (src/core/check/rules-linter.ts): one issue when both
`-` and `*` list markers occur. -/
def lintListMarkers (content filePath : String) : List Issue :=
  let lines := jsSplitChar content '\n'
  let dashCount := (lines.filter (startsWithMarker '-')).length
  let asteriskCount := (lines.filter (startsWithMarker '*')).length
  if 0 < dashCount ∧ 0 < asteriskCount then
    [createIssue "inconsistent-list-markers" filePath .info
      "Mix of - and * list markers detected"]
  else []

/-- `LintResultLegacy` (src/core/check/rules-linter.ts). -/
structure LintResultLegacy where
  filePath : String
  issues : List Issue
  passed : Bool
deriving DecidableEq

/-- `lintContent` (src/core/check/rules-linter.ts) with its default rule
set: all four `LINT_RULES` entries are enabled, applied in declaration
order. -/
def lintContent (content filePath : String) : LintResultLegacy :=
  let issues := lintHeadingStructure content filePath ++ lintUrlFormat content filePath ++
    lintTrailingWhitespace content filePath ++ lintListMarkers content filePath
  { filePath := filePath, issues := issues,
    passed := (issues.filter (fun i => decide (i.severity = IssueSeverity.error))).length == 0 }

/-- The section-tracking state of `checkEmptySections`. -/
structure EmptySectionState where
  currentSection : Option String
  sectionStartLine : Nat
  sectionHeadingLevel : Nat
  sectionHasContent : Bool
  sectionWasFirst : Bool
  isFirstHeading : Bool

/-- The `empty_section` issue `checkEmptySections` pushes. -/
def mkEmptySectionIssue (sectionTitle : String) (startLine : Nat) : CheckIssue :=
  { path := "", code := .empty_section,
    message := "Section \"" ++ sectionTitle ++ "\" has no content",
    severity := .info, line := some startLine }

/-- The empty-section check `checkEmptySections` performs when a section
ends (at the next heading or at end of input). -/
def emptySectionClose (st : EmptySectionState) : List CheckIssue :=
  match st.currentSection with
  | some title =>
    if st.sectionHasContent = false ∧ st.sectionWasFirst = false then
      [mkEmptySectionIssue title st.sectionStartLine]
    else []
  | none => []

/-- One line step of `checkEmptySections`: a heading line first credits a
deeper subsection as content of the current section, then closes it and
starts a new section; any other nonblank line marks the current section as
having content. -/
def emptySectionStep (st : EmptySectionState) (p : Nat × String) :
    List CheckIssue × EmptySectionState :=
  match matchFullHeading p.2 with
  | some lvlTitle =>
    let st1 :=
      if st.currentSection.isSome && decide (st.sectionHeadingLevel < lvlTitle.1) then
        { st with sectionHasContent := true }
      else st
    (emptySectionClose st1,
     { currentSection := some (jsTrim lvlTitle.2)
       sectionStartLine := p.1 + 1
       sectionHeadingLevel := lvlTitle.1
       sectionHasContent := false
       sectionWasFirst := st.isFirstHeading
       isFirstHeading := false })
  | none =>
    ([],
     if st.currentSection.isSome && decide (0 < (jsTrim p.2).length) then
       { st with sectionHasContent := true }
     else st)

/-- The line loop of `checkEmptySections`, closing the last section at end
of input. -/
def emptySectionFold : List (Nat × String) → EmptySectionState → List CheckIssue
  | [], st => emptySectionClose st
  | p :: rest, st =>
    (emptySectionStep st p).1 ++ emptySectionFold rest (emptySectionStep st p).2

/-- `checkEmptySections` (src/core/check/rules-linter.ts). -/
def checkEmptySections (content : String) : List CheckIssue :=
  emptySectionFold (jsSplitChar content '\n').enum
    { currentSection := none, sectionStartLine := 0, sectionHeadingLevel := 0,
      sectionHasContent := false, sectionWasFirst := false, isFirstHeading := true }

/-- The `duplicate_url` issue `checkDuplicateUrls` pushes at 0-based line
`i` for a URL first seen at 1-based line `firstLine`. -/
def mkDuplicateUrlIssue (url : String) (i firstLine : Nat) : CheckIssue :=
  { path := "", code := .duplicate_url,
    message := "URL \"" ++ url ++ "\" appears multiple times (first at line " ++
      toString firstLine ++ ")",
    severity := .warning, line := some (i + 1), context := some url }

/-- The per-line URL loop of `checkDuplicateUrls`: the `seenUrls` map is an
association list keyed by URL, holding the 1-based line of the first
occurrence (each key is set at most once, so lookup agrees with the JS
`Map`). -/
def dupUrlLine (i : Nat) :
    List (String × Nat) → List String → List CheckIssue × List (String × Nat)
  | seen, [] => ([], seen)
  | seen, url :: rest =>
    match seen.lookup url with
    | some firstLine =>
      (mkDuplicateUrlIssue url i firstLine :: (dupUrlLine i seen rest).1,
        (dupUrlLine i seen rest).2)
    | none => dupUrlLine i ((url, i + 1) :: seen) rest

/-- The line loop of `checkDuplicateUrls`, threading the `seenUrls` map. -/
def dupUrlLines : List (Nat × String) → List (String × Nat) → List CheckIssue
  | [], _ => []
  | p :: rest, seen =>
    (dupUrlLine p.1 seen ((scanLinks p.2).map (fun m => m.2))).1 ++
      dupUrlLines rest (dupUrlLine p.1 seen ((scanLinks p.2).map (fun m => m.2))).2

/-- `checkDuplicateUrls` (src/core/check/rules-linter.ts). -/
def checkDuplicateUrls (content : String) : List CheckIssue :=
  dupUrlLines (jsSplitChar content '\n').enum []

/-- The `issue.id as CheckIssueCode` cast in `lintFile`
(src/core/check/checker.ts): at runtime the cast keeps the string, so ids
from the declared union map to their constructor and any other id (the four
lint-rule ids) maps to `CheckIssueCode.other` with the string preserved. -/
def castCheckIssueCode (id : String) : CheckIssueCode :=
  if id = "file_missing" then .file_missing
  else if id = "file_mismatch" then .file_mismatch
  else if id = "file_empty" then .file_empty
  else if id = "forbidden_term" then .forbidden_term
  else if id = "empty_section" then .empty_section
  else if id = "duplicate_url" then .duplicate_url
  else if id = "invalid_url" then .invalid_url
  else if id = "config_invalid" then .config_invalid
  else .other id

/-- The legacy-to-check conversion `lintFile` performs on the basic-rule
issues: `path` becomes the file path, `code` the cast rule id; `line` and
`suggestion` (as `context`) carry over when present. -/
def lintIssueToCheckIssue (filePath : String) (issue : Issue) : CheckIssue :=
  { path := filePath, code := castCheckIssueCode issue.id, message := issue.message,
    severity := issue.severity, line := issue.line, context := issue.suggestion }

/-- The re-wrap `lintFile` performs on `checkForbiddenTerms` /
`checkEmptySections` / `checkDuplicateUrls` issues: `path` becomes the file
path and `code` the fixed code of the block. -/
def rewrapCheckIssue (filePath : String) (code : CheckIssueCode) (issue : CheckIssue) :
    CheckIssue :=
  { path := filePath, code := code, message := issue.message,
    severity := issue.severity, line := issue.line, context := issue.context }

/-- `lintFile` (src/core/check/checker.ts): the basic lint rules, then
forbidden terms when `config.policy.restrictedClaims.enable`, then empty
sections, then duplicate URLs. -/
def lintFile (filePath content : String) (config : LlmsSeoConfig) : List CheckIssue :=
  (lintContent content filePath).issues.map (lintIssueToCheckIssue filePath) ++
    (match config.policy.bind (·.restrictedClaims) with
     | some rc =>
       if rc.enable then
         (checkForbiddenTerms content (rc.forbidden.getD []) (rc.whitelist.getD [])).map
           (rewrapCheckIssue filePath .forbidden_term)
       else []
     | none => []) ++
    (checkEmptySections content).map (rewrapCheckIssue filePath .empty_section) ++
    (checkDuplicateUrls content).map (rewrapCheckIssue filePath .duplicate_url)

/-- `checkFile` (src/core/check/checker.ts) over the explicit file-system
model: a failed read yields the flag `false` with empty content. -/
def checkFile (fs : String → Option String) (filePath : String) : Bool × String :=
  match fs filePath with
  | some content => (true, content)
  | none => (false, "")

/-- The `failOn` threshold of `CheckOptions` (src/core/check/checker.ts). -/
inductive FailOn where
  | warn
  | error
deriving DecidableEq

/-- `CheckOptions` (src/core/check/checker.ts). -/
structure CheckOptions where
  config : LlmsSeoConfig
  llmsTxtPath : Option String := none
  llmsFullTxtPath : Option String := none
  citationsPath : Option String := none
  failOn : FailOn

/-- The severity counters of `countSeverities` (src/core/check/issues.ts). -/
structure SeverityCounts where
  error : Nat
  warning : Nat
  info : Nat
deriving DecidableEq

/-- `countSeverities` (src/core/check/issues.ts). -/
def countSeverities (issues : List CheckIssue) : SeverityCounts :=
  issues.foldl (fun counts issue =>
    match issue.severity with
    | .error => { counts with error := counts.error + 1 }
    | .warning => { counts with warning := counts.warning + 1 }
    | .info => { counts with info := counts.info + 1 })
    { error := 0, warning := 0, info := 0 }

/-- The `summary` of a `CheckResult` (src/core/check/checker.ts). -/
structure CheckSummary where
  errors : Nat
  warnings : Nat
  info : Nat
  filesChecked : Nat
  filesMissing : Nat
  filesMismatch : Nat
deriving DecidableEq

/-- `CheckResult` (src/core/check/checker.ts); `exitCode` is the numeric CI
exit code (0 OK, 1 WARN, 2 ERROR). -/
structure CheckResult where
  issues : List CheckIssue
  summary : CheckSummary
  exitCode : Nat
deriving DecidableEq

/-- One required-file block of `checkGeneratedFiles` (the source repeats it
verbatim for `llms.txt` and `llms-full.txt`): missing file →
`error:file_missing`; empty file → `warning:file_empty`; otherwise run
`lintFile` on the content. Returns the issues and the (`filesChecked`,
`filesMissing`) increments. -/
def checkRequiredFileBlock (fs : String → Option String) (config : LlmsSeoConfig)
    (path : String) : List CheckIssue × Nat × Nat :=
  match checkFile fs path with
  | (false, _) =>
    ([createCheckIssue .error .file_missing
        ("Required file does not exist: " ++ path) path], 0, 1)
  | (true, content) =>
    if content = "" then
      ([createCheckIssue .warning .file_empty ("File is empty: " ++ path) path], 1, 0)
    else (lintFile path content config, 1, 0)

/-- The optional citations block of `checkGeneratedFiles`: runs only when
the citations path is truthy; a missing file is a `warning:file_missing`. -/
def checkCitationsBlock (fs : String → Option String) (citationsPath : Option String) :
    List CheckIssue × Nat × Nat :=
  match citationsPath with
  | some cp =>
    if cp = "" then ([], 0, 0)
    else
      match checkFile fs cp with
      | (false, _) =>
        ([createCheckIssue .warning .file_missing
            ("Optional citations file does not exist: " ++ cp) cp], 0, 1)
      | (true, _) => ([], 1, 0)
  | none => ([], 0, 0)

/-- `options.llmsTxtPath ?? config.output.paths.llmsTxt` in
`checkGeneratedFiles`. -/
def resolvedLlmsTxtPath (options : CheckOptions) : String :=
  options.llmsTxtPath.getD options.config.output.paths.llmsTxt

/-- `options.llmsFullTxtPath ?? config.output.paths.llmsFullTxt` in
`checkGeneratedFiles`. -/
def resolvedLlmsFullTxtPath (options : CheckOptions) : String :=
  options.llmsFullTxtPath.getD options.config.output.paths.llmsFullTxt

/-- `options.citationsPath ?? config.output.paths.citations` in
`checkGeneratedFiles`. -/
def resolvedCitationsPath (options : CheckOptions) : Option String :=
  options.citationsPath.orElse (fun _ => options.config.output.paths.citations)

/-- The issue list `checkGeneratedFiles` accumulates: the two required-file
blocks, then the citations block. -/
def checkGeneratedFilesIssues (fs : String → Option String) (options : CheckOptions) :
    List CheckIssue :=
  (checkRequiredFileBlock fs options.config (resolvedLlmsTxtPath options)).1 ++
    (checkRequiredFileBlock fs options.config (resolvedLlmsFullTxtPath options)).1 ++
    (checkCitationsBlock fs (resolvedCitationsPath options)).1

/-- `checkGeneratedFiles` (src/core/check/checker.ts): presence checks and
linting of the generated files, with summary counters and the CI exit code;
`filesMismatch` is always 0 here (this function performs no diff). -/
def checkGeneratedFiles (fs : String → Option String) (options : CheckOptions) :
    CheckResult :=
  let b1 := checkRequiredFileBlock fs options.config (resolvedLlmsTxtPath options)
  let b2 := checkRequiredFileBlock fs options.config (resolvedLlmsFullTxtPath options)
  let b3 := checkCitationsBlock fs (resolvedCitationsPath options)
  let issues := checkGeneratedFilesIssues fs options
  let counts := countSeverities issues
  let exitCode : Nat :=
    if 0 < counts.error then 2
    else if options.failOn = FailOn.warn ∧ 0 < counts.warning then 1
    else 0
  { issues := issues,
    summary :=
      { errors := counts.error, warnings := counts.warning, info := counts.info,
        filesChecked := b1.2.1 + b2.2.1 + b3.2.1,
        filesMissing := b1.2.2 + b2.2.2 + b3.2.2, filesMismatch := 0 },
    exitCode := exitCode }

/-! ## The check command (src/cli/commands/check.ts, `checkCommand`) -/

/-- The `CheckOptions` that `checkCommand` passes to `checkGeneratedFiles`:
the two required paths from `config.output.paths`, the citations path spread
in only when truthy. -/
def checkCommandCheckOptions (config : LlmsSeoConfig) (failOn : FailOn) : CheckOptions :=
  { config := config, failOn := failOn,
    llmsTxtPath := some config.output.paths.llmsTxt,
    llmsFullTxtPath := some config.output.paths.llmsFullTxt,
    citationsPath :=
      match config.output.paths.citations with
      | some c => if c = "" then none else some c
      | none => none }

/-- The `requiredMissing` guard of `checkCommand`
(src/cli/commands/check.ts): some issue is a `file_missing` whose path is
one of the two required output paths. -/
def checkCommandRequiredMissing (config : LlmsSeoConfig) (issues : List CheckIssue) : Bool :=
  issues.any (fun issue =>
    decide (issue.code = CheckIssueCode.file_missing) &&
      (decide (issue.path = config.output.paths.llmsTxt) ||
        decide (issue.path = config.output.paths.llmsFullTxt)))

/-- The merged check result of `checkCommand` (src/cli/commands/check.ts):
run `checkGeneratedFiles`; only when no required file is missing, run
`checkFilesAgainstExpected` and, if it found issues, fold them into the
result and recount the summary. The expected contents — computed there by
`createLlmsTxt` / `createLlmsFullTxt` from the loaded config — enter as
explicit parameters. -/
def checkCommandMergedResult (fs : String → Option String) (config : LlmsSeoConfig)
    (failOn : FailOn) (expectedLlmsContent expectedLlmsFullContent : String) : CheckResult :=
  let result := checkGeneratedFiles fs (checkCommandCheckOptions config failOn)
  if checkCommandRequiredMissing config result.issues then result
  else
    let mismatchIssues := checkFilesAgainstExpected fs config.output.paths.llmsTxt
      expectedLlmsContent config.output.paths.llmsFullTxt expectedLlmsFullContent
    if 0 < mismatchIssues.length then
      let issues := result.issues ++ mismatchIssues
      let counts := countSeverities issues
      let mismatchCount := (mismatchIssues.filter
        (fun issue => decide (issue.code = CheckIssueCode.file_mismatch))).length
      { result with
        issues := issues,
        summary :=
          { result.summary with
            errors := counts.error,
            warnings := counts.warning,
            info := counts.info,
            filesMismatch := result.summary.filesMismatch + mismatchCount } }
    else result

/-- A minimal configuration exercising the check command. -/
def checkSampleConfig : LlmsSeoConfig :=
  { site := { baseUrl := "https://example.com" }
    brand := { name := "Acme", locales := ["en"] }
    manifests := []
    output :=
      { paths :=
        { llmsTxt := "public/llms.txt",
          llmsFullTxt := "public/llms-full.txt" } } }

/-! # Theorems -/

/-! ## Sorting helpers -/

theorem stableSortStrings_perm (l : List String) : List.Perm (stableSortStrings l) l :=
  List.perm_insertionSort localeLe l

theorem stableSortStrings_sorted (l : List String) :
    (stableSortStrings l).Sorted localeLe :=
  List.sorted_insertionSort localeLe l

theorem sortUrlsByPath_perm (l : List String) : List.Perm (sortUrlsByPath l) l :=
  List.perm_insertionSort urlLe l

theorem sortUrlsByPath_pairwise (l : List String) : (sortUrlsByPath l).Pairwise urlLe :=
  List.sorted_insertionSort urlLe l

theorem dedupeUrls_aux_nodup (l : List String) :
    ∀ acc : List String, acc.Nodup →
      (l.foldl (fun acc u => if u ∈ acc then acc else acc ++ [u]) acc).Nodup := by
  induction l with
  | nil => intro acc h; exact h
  | cons u rest ih =>
    intro acc h
    simp only [List.foldl_cons]
    by_cases hu : u ∈ acc
    · rw [if_pos hu]
      exact ih acc h
    · rw [if_neg hu]
      exact ih (acc ++ [u]) (h.append (List.nodup_singleton u) (by simpa using hu))

theorem dedupeUrls_nodup (l : List String) : (dedupeUrls l).Nodup :=
  dedupeUrls_aux_nodup l [] List.nodup_nil

theorem sortUrlsByPath_dedupe_nodup (l : List String) :
    (sortUrlsByPath (dedupeUrls l)).Nodup :=
  ((sortUrlsByPath_perm (dedupeUrls l)).nodup_iff).mpr (dedupeUrls_nodup l)

/-! ## Locale selector lemmas -/

theorem selectCanonicalLocale_eq (d : String) (l : List String) :
    selectCanonicalLocale d l =
      if l = [] then none
      else if l.filter (fun s => s.length > 0) = [] then none
      else if d ≠ "" ∧ d ∈ l.filter (fun s => s.length > 0) then some d
      else (stableSortStrings (l.filter (fun s => s.length > 0))).head? := by
  unfold selectCanonicalLocale
  simp only [List.isEmpty_iff, List.elem_iff]

theorem selectCanonicalLocale_perm (d : String) {l₁ l₂ : List String}
    (h : List.Perm l₁ l₂) :
    selectCanonicalLocale d l₁ = selectCanonicalLocale d l₂ := by
  rw [selectCanonicalLocale_eq, selectCanonicalLocale_eq]
  have hfilt : List.Perm (l₁.filter (fun s => s.length > 0))
      (l₂.filter (fun s => s.length > 0)) := h.filter _
  by_cases h1 : l₁ = []
  · have h2 : l₂ = [] := (h1 ▸ h).nil_eq.symm
    rw [h1, h2]
  · have h2 : l₂ ≠ [] := fun he => h1 (he ▸ h).eq_nil
    rw [if_neg h1, if_neg h2]
    by_cases hf1 : l₁.filter (fun s => s.length > 0) = []
    · have hf2 : l₂.filter (fun s => s.length > 0) = [] := (hf1 ▸ hfilt).nil_eq.symm
      rw [if_pos hf1, if_pos hf2]
    · have hf2 : l₂.filter (fun s => s.length > 0) ≠ [] := fun he => hf1 (he ▸ hfilt).eq_nil
      rw [if_neg hf1, if_neg hf2]
      have hsorteq : stableSortStrings (l₁.filter (fun s => s.length > 0)) =
          stableSortStrings (l₂.filter (fun s => s.length > 0)) :=
        List.eq_of_perm_of_sorted
          ((stableSortStrings_perm _).trans (hfilt.trans (stableSortStrings_perm _).symm))
          (stableSortStrings_sorted _) (stableSortStrings_sorted _)
      by_cases hd : d ≠ "" ∧ d ∈ l₁.filter (fun s => s.length > 0)
      · rw [if_pos hd, if_pos ⟨hd.1, hfilt.mem_iff.mp hd.2⟩]
      · rw [if_neg hd, if_neg (fun hc => hd ⟨hc.1, hfilt.mem_iff.mpr hc.2⟩), hsorteq]

theorem selectCanonicalLocale_none_of_filter_nil (d : String) (l : List String)
    (h : l.filter (fun s => s.length > 0) = []) : selectCanonicalLocale d l = none := by
  by_cases h1 : l = []
  · rw [selectCanonicalLocale_eq, if_pos h1]
  · rw [selectCanonicalLocale_eq, if_neg h1, if_pos h]

theorem selectCanonicalLocale_default_mem (d : String) (l : List String)
    (hmem : d ∈ l.filter (fun s => s.length > 0)) :
    selectCanonicalLocale d l = some d := by
  have hdl : d ∈ l := (List.mem_filter.mp hmem).1
  have hl : l ≠ [] := List.ne_nil_of_mem hdl
  have hfne : l.filter (fun s => s.length > 0) ≠ [] := List.ne_nil_of_mem hmem
  have hd : d ≠ "" := by
    have := (List.mem_filter.mp hmem).2
    intro he; subst he; simp at this
  rw [selectCanonicalLocale_eq, if_neg hl, if_neg hfne, if_pos ⟨hd, hmem⟩]

theorem selectCanonicalLocale_min (d : String) (l : List String)
    (hnm : d ∉ l.filter (fun s => s.length > 0))
    (hne : l.filter (fun s => s.length > 0) ≠ []) :
    ∃ m, selectCanonicalLocale d l = some m ∧ m ∈ l.filter (fun s => s.length > 0) ∧
      ∀ x ∈ l.filter (fun s => s.length > 0), localeLe m x := by
  have hl : l ≠ [] := by
    intro he; subst he; simp at hne
  have hsne : stableSortStrings (l.filter (fun s => s.length > 0)) ≠ [] := by
    intro he
    exact hne (List.perm_nil.mp ((he ▸ stableSortStrings_perm
      (l.filter (fun s => s.length > 0))).symm))
  obtain ⟨m, rest, hs⟩ := List.exists_cons_of_ne_nil hsne
  refine ⟨m, ?_, ?_, ?_⟩
  · rw [selectCanonicalLocale_eq, if_neg hl, if_neg hne, if_neg (fun hc => hnm hc.2), hs]
    rfl
  · exact (stableSortStrings_perm _).subset (hs ▸ List.mem_cons_self m rest)
  · intro x hx
    have hxs : x ∈ stableSortStrings (l.filter (fun s => s.length > 0)) :=
      (stableSortStrings_perm _).mem_iff.mpr hx
    rw [hs] at hxs
    rcases List.mem_cons.mp hxs with hxm | hxr
    · subst hxm; exact lexLeB_refl _
    · have hsorted := stableSortStrings_sorted (l.filter (fun s => s.length > 0))
      rw [hs] at hsorted
      exact (List.sorted_cons.mp hsorted).1 x hxr

theorem selectCanonicalLocale_mem (d : String) (l : List String) (x : String)
    (h : selectCanonicalLocale d l = some x) : x ∈ l ∧ x ≠ "" := by
  rw [selectCanonicalLocale_eq] at h
  by_cases h1 : l = []
  · rw [if_pos h1] at h; exact absurd h (by simp)
  rw [if_neg h1] at h
  by_cases h2 : l.filter (fun s => s.length > 0) = []
  · rw [if_pos h2] at h; exact absurd h (by simp)
  rw [if_neg h2] at h
  by_cases h3 : d ≠ "" ∧ d ∈ l.filter (fun s => s.length > 0)
  · rw [if_pos h3] at h
    obtain rfl : d = x := Option.some.inj h
    exact ⟨(List.mem_filter.mp h3.2).1, h3.1⟩
  · rw [if_neg h3] at h
    have hx : x ∈ stableSortStrings (l.filter (fun s => s.length > 0)) := by
      cases hs : stableSortStrings (l.filter (fun s => s.length > 0)) with
      | nil => rw [hs] at h; exact absurd h (by simp)
      | cons a rest =>
        rw [hs] at h
        have : a = x := Option.some.inj h
        exact List.mem_cons.mpr (Or.inl this.symm)
    have hx2 : x ∈ l.filter (fun s => s.length > 0) :=
      (stableSortStrings_perm _).mem_iff.mp hx
    have hm := List.mem_filter.mp hx2
    refine ⟨hm.1, ?_⟩
    have hlen := hm.2
    intro he; subst he; simp at hlen

/-! ## Claim C2 -/

/-- C2: `selectCanonicalLocale` is a pure, total, deterministic function of
its input set, invariant under permutation of `availableLocales`: it filters
out empty entries; returns `none` when the filtered list is empty; returns
`defaultLocale` when it is among the filtered entries; otherwise returns the
first element of the filtered list under the (modelled) locale-aware
comparison, i.e. its minimum. In particular
`selectCanonicalLocale d [] = none`,
`selectCanonicalLocale "en" ["uk", "en", "de"] = some "en"` and
`selectCanonicalLocale "fr" ["uk", "de", "en"] = some "de"`. -/
theorem c2_select_canonical_locale :
    (∀ (d : String) (l₁ l₂ : List String), List.Perm l₁ l₂ →
      selectCanonicalLocale d l₁ = selectCanonicalLocale d l₂) ∧
    (∀ d : String, selectCanonicalLocale d [] = none) ∧
    (∀ (d : String) (l : List String), l.filter (fun s => s.length > 0) = [] →
      selectCanonicalLocale d l = none) ∧
    (∀ (d : String) (l : List String), d ∈ l.filter (fun s => s.length > 0) →
      selectCanonicalLocale d l = some d) ∧
    (∀ (d : String) (l : List String), d ∉ l.filter (fun s => s.length > 0) →
      l.filter (fun s => s.length > 0) ≠ [] →
      ∃ m, selectCanonicalLocale d l = some m ∧ m ∈ l.filter (fun s => s.length > 0) ∧
        ∀ x ∈ l.filter (fun s => s.length > 0), localeLe m x) ∧
    selectCanonicalLocale "en" ["uk", "en", "de"] = some "en" ∧
    selectCanonicalLocale "fr" ["uk", "de", "en"] = some "de" :=
  ⟨fun d _ _ h => selectCanonicalLocale_perm d h,
   fun _ => rfl,
   selectCanonicalLocale_none_of_filter_nil,
   selectCanonicalLocale_default_mem,
   selectCanonicalLocale_min,
   by decide,
   by decide⟩

/-- Witness for C2 at concrete inputs. -/
theorem c2_select_canonical_locale_witness :
    List.Perm ["uk", "de"] ["de", "uk"] ∧
    selectCanonicalLocale "fr" ["uk", "de"] = selectCanonicalLocale "fr" ["de", "uk"] ∧
    ("en" ∈ (["uk", "en", "de"] : List String).filter (fun s => s.length > 0) ∧
      selectCanonicalLocale "en" ["uk", "en", "de"] = some "en") :=
  ⟨by decide,
   c2_select_canonical_locale.1 "fr" ["uk", "de"] ["de", "uk"] (by decide),
   by decide,
   c2_select_canonical_locale.2.2.2.1 "en" ["uk", "en", "de"] (by decide)⟩

/-! ## Claim C10 -/

/-- C10: whenever `selectCanonicalLocale defaultLocale availableLocales`
returns a locale, that locale is an element of the supplied
`availableLocales` list and is a non-empty string: the function never
invents a locale outside the supplied set. -/
theorem c10_selected_locale_in_input (d : String) (l : List String) (x : String)
    (h : selectCanonicalLocale d l = some x) : x ∈ l ∧ x ≠ "" :=
  selectCanonicalLocale_mem d l x h

/-- Witness for C10 at a concrete input. -/
theorem c10_selected_locale_in_input_witness :
    selectCanonicalLocale "fr" ["uk", "de"] = some "de" ∧
    ("de" ∈ (["uk", "de"] : List String) ∧ "de" ≠ "") :=
  ⟨by decide, c10_selected_locale_in_input "fr" ["uk", "de"] "de" (by decide)⟩

/-! ## Claim C4 -/

/-- C4: for every manifest item whose `canonicalOverride` is set (per the
data model an absolute URL, hence a non-empty string — the source's
truthiness check), `createCanonicalUrlForItem` returns that string
unchanged, whatever the other options are: no normalization or locale
processing is applied to it. -/
theorem c4_canonical_override_verbatim (item : ManifestItem)
    (options : CanonicalItemOptions) (s : String)
    (hset : item.canonicalOverride = some s) (hne : s ≠ "") :
    createCanonicalUrlForItem item options = .ok s := by
  unfold createCanonicalUrlForItem
  rw [hset]
  exact if_pos hne

/-- Witness for C4 at a concrete item and options. -/
theorem c4_canonical_override_verbatim_witness :
    ({ slug := "/original", canonicalOverride := some "https://cdn.example.com/page"
       : ManifestItem }).canonicalOverride = some "https://cdn.example.com/page" ∧
    "https://cdn.example.com/page" ≠ "" ∧
    createCanonicalUrlForItem
      { slug := "/original", canonicalOverride := some "https://cdn.example.com/page" }
      { baseUrl := "https://example.com", defaultLocale := "en",
        trailingSlash := .always, localeStrategy := .stratSubdomain,
        routeStyle := some .styleLocaleSegment, sectionPath := some "/blog" } =
      .ok "https://cdn.example.com/page" :=
  ⟨rfl, by decide,
   c4_canonical_override_verbatim _ _ _ rfl (by decide)⟩

/-! ## Content comparison lemmas -/

theorem compareContent_matched_iff (expected actual : String) (n : Nat) :
    (compareContent expected actual n).matched = true ↔ expected = actual := by
  by_cases h : expected = actual
  · simp [compareContent, h]
  · simp [compareContent, h]

theorem diffLoop_eq (eL aL : List String) :
    ∀ (is : List Nat) (b : Nat),
      diffLoop eL aL is b =
        ((is.filter (fun i => eL[i]? ≠ aL[i]?)).take b).flatMap (diffEntryFor eL aL) := by
  intro is
  induction is with
  | nil => intro b; cases b <;> rfl
  | cons i rest ih =>
    intro b
    cases b with
    | zero => rfl
    | succ b =>
      by_cases hd : eL[i]? ≠ aL[i]?
      · simp [diffLoop, hd, List.filter_cons, ih]
      · simp [diffLoop, hd, List.filter_cons, ih]

/-! ## Checker lemmas -/

theorem checkOneExpectedFile_shape (fs : String → Option String) (p e : String) (n : Nat) :
    ∀ issue ∈ checkOneExpectedFile fs p e n,
      issue.path = p ∧
      (issue.code = .file_mismatch →
        ∃ c, fs p = some c ∧ c ≠ "" ∧ (compareContent e c n).matched = false) := by
  intro issue hmem
  unfold checkOneExpectedFile readFileContent at hmem
  split at hmem
  · simp only [List.mem_singleton] at hmem
    subst hmem
    exact ⟨rfl, by intro hc; exact absurd hc (by simp [createCheckIssue])⟩
  · rename_i c hfs
    split at hmem
    · simp only [List.mem_singleton] at hmem
      subst hmem
      exact ⟨rfl, by intro hc; exact absurd hc (by simp [createCheckIssue])⟩
    · rename_i hc
      dsimp only [] at hmem
      split at hmem
      · rename_i hm
        simp only [List.mem_singleton] at hmem
        subst hmem
        refine ⟨rfl, fun _ => ⟨c, hfs, hc, ?_⟩⟩
        simpa using hm
      · simp at hmem

theorem checkOneExpectedFile_emits (fs : String → Option String) (p e c : String) (n : Nat)
    (h1 : fs p = some c) (h2 : c ≠ "") (h3 : (compareContent e c n).matched = false) :
    createCheckIssue .error .file_mismatch "Content differs from expected output" p
      (some (compareContent e c n).context) ∈ checkOneExpectedFile fs p e n := by
  unfold checkOneExpectedFile readFileContent
  rw [h1]
  dsimp only []
  rw [if_neg h2, if_pos (by simp [h3])]
  exact List.mem_singleton.mpr rfl

/-! ## Claim C5 -/

theorem lintHeadingStructureAux_id (fp : String) (ps : List (Nat × String)) (prev : Nat) :
    ∀ issue ∈ lintHeadingStructureAux fp ps prev, issue.id = "heading-skip" := by
  induction ps generalizing prev with
  | nil => intro issue h; simp [lintHeadingStructureAux] at h
  | cons p rest ih =>
    intro issue h
    unfold lintHeadingStructureAux at h
    split at h
    · rcases List.mem_append.mp h with h1 | h1
      · split at h1
        · rw [List.mem_singleton] at h1
          subst h1
          rfl
        · simp at h1
      · exact ih _ issue h1
    · exact ih _ issue h

theorem lintUrlFormat_id (content fp : String) :
    ∀ issue ∈ lintUrlFormat content fp, issue.id = "invalid-url" := by
  intro issue h
  unfold lintUrlFormat at h
  rw [List.mem_flatMap] at h
  obtain ⟨p, -, hp⟩ := h
  rw [List.mem_flatMap] at hp
  obtain ⟨m, -, hm⟩ := hp
  split at hm
  · rw [List.mem_singleton] at hm
    subst hm
    rfl
  · simp at hm

theorem lintTrailingWhitespace_id (content fp : String) :
    ∀ issue ∈ lintTrailingWhitespace content fp, issue.id = "trailing-whitespace" := by
  intro issue h
  unfold lintTrailingWhitespace at h
  rw [List.mem_flatMap] at h
  obtain ⟨p, -, hp⟩ := h
  split at hp
  · rw [List.mem_singleton] at hp
    subst hp
    rfl
  · simp at hp

theorem lintListMarkers_id (content fp : String) :
    ∀ issue ∈ lintListMarkers content fp, issue.id = "inconsistent-list-markers" := by
  intro issue h
  simp only [lintListMarkers] at h
  split at h
  · rw [List.mem_singleton] at h
    subst h
    rfl
  · simp at h

theorem lintContent_issue_id (content fp : String) :
    ∀ issue ∈ (lintContent content fp).issues,
      issue.id = "heading-skip" ∨ issue.id = "invalid-url" ∨
        issue.id = "trailing-whitespace" ∨ issue.id = "inconsistent-list-markers" := by
  intro issue h
  simp only [lintContent] at h
  rcases List.mem_append.mp h with h1 | h1
  · rcases List.mem_append.mp h1 with h2 | h2
    · rcases List.mem_append.mp h2 with h3 | h3
      · exact Or.inl (lintHeadingStructureAux_id fp _ 0 issue h3)
      · exact Or.inr (Or.inl (lintUrlFormat_id content fp issue h3))
    · exact Or.inr (Or.inr (Or.inl (lintTrailingWhitespace_id content fp issue h2)))
  · exact Or.inr (Or.inr (Or.inr (lintListMarkers_id content fp issue h1)))

theorem lintFile_code_ne_mismatch (fp content : String) (config : LlmsSeoConfig) :
    ∀ issue ∈ lintFile fp content config, issue.code ≠ CheckIssueCode.file_mismatch := by
  intro issue h
  simp only [lintFile] at h
  rcases List.mem_append.mp h with h1 | h1
  · rcases List.mem_append.mp h1 with h2 | h2
    · rcases List.mem_append.mp h2 with h3 | h3
      · obtain ⟨src, hsrc, rfl⟩ := List.mem_map.mp h3
        have hcode : (lintIssueToCheckIssue fp src).code = castCheckIssueCode src.id := rfl
        rw [hcode]
        rcases lintContent_issue_id content fp src hsrc with h4 | h4 | h4 | h4 <;>
          rw [h4] <;> decide
      · split at h3
        · split at h3
          · obtain ⟨src, -, rfl⟩ := List.mem_map.mp h3
            simp [rewrapCheckIssue]
          · simp at h3
        · simp at h3
    · obtain ⟨src, -, rfl⟩ := List.mem_map.mp h2
      simp [rewrapCheckIssue]
  · obtain ⟨src, -, rfl⟩ := List.mem_map.mp h1
    simp [rewrapCheckIssue]

theorem checkRequiredFileBlock_no_mismatch (fs : String → Option String)
    (config : LlmsSeoConfig) (path : String) :
    ∀ issue ∈ (checkRequiredFileBlock fs config path).1,
      issue.code ≠ CheckIssueCode.file_mismatch := by
  intro issue h
  cases hfs : fs path with
  | none =>
    simp only [checkRequiredFileBlock, checkFile, hfs, List.mem_singleton] at h
    subst h
    simp [createCheckIssue]
  | some content =>
    simp only [checkRequiredFileBlock, checkFile, hfs] at h
    by_cases hc : content = ""
    · rw [if_pos hc] at h
      simp only [List.mem_singleton] at h
      subst h
      simp [createCheckIssue]
    · rw [if_neg hc] at h
      exact lintFile_code_ne_mismatch path content config issue h

theorem checkCitationsBlock_no_mismatch (fs : String → Option String)
    (citationsPath : Option String) :
    ∀ issue ∈ (checkCitationsBlock fs citationsPath).1,
      issue.code ≠ CheckIssueCode.file_mismatch := by
  intro issue h
  cases citationsPath with
  | none => simp [checkCitationsBlock] at h
  | some cp =>
    by_cases hc : cp = ""
    · simp [checkCitationsBlock, hc] at h
    · cases hfs : fs cp with
      | none =>
        simp only [checkCitationsBlock, checkFile, hfs, if_neg hc,
          List.mem_singleton] at h
        subst h
        simp [createCheckIssue]
      | some content =>
        simp [checkCitationsBlock, checkFile, hfs, if_neg hc] at h

theorem checkGeneratedFilesIssues_no_mismatch (fs : String → Option String)
    (options : CheckOptions) :
    ∀ issue ∈ checkGeneratedFilesIssues fs options,
      issue.code ≠ CheckIssueCode.file_mismatch := by
  intro issue h
  unfold checkGeneratedFilesIssues at h
  rcases List.mem_append.mp h with h1 | h1
  · rcases List.mem_append.mp h1 with h2 | h2
    · exact checkRequiredFileBlock_no_mismatch fs options.config _ issue h2
    · exact checkRequiredFileBlock_no_mismatch fs options.config _ issue h2
  · exact checkCitationsBlock_no_mismatch fs _ issue h1

theorem checkRequiredFileBlock_missing (fs : String → Option String)
    (config : LlmsSeoConfig) (path : String) (h : fs path = none) :
    (checkRequiredFileBlock fs config path).1 =
      [createCheckIssue .error .file_missing
        ("Required file does not exist: " ++ path) path] := by
  simp [checkRequiredFileBlock, checkFile, h]

theorem checkGeneratedFiles_issues_eq (fs : String → Option String)
    (options : CheckOptions) :
    (checkGeneratedFiles fs options).issues = checkGeneratedFilesIssues fs options := rfl

theorem missing_required_mem_issues (fs : String → Option String)
    (config : LlmsSeoConfig) (failOn : FailOn)
    (hmiss : fs config.output.paths.llmsTxt = none ∨
      fs config.output.paths.llmsFullTxt = none) :
    ∃ p, (p = config.output.paths.llmsTxt ∨ p = config.output.paths.llmsFullTxt) ∧
      createCheckIssue .error .file_missing ("Required file does not exist: " ++ p) p ∈
        checkGeneratedFilesIssues fs (checkCommandCheckOptions config failOn) := by
  rcases hmiss with hm | hm
  · refine ⟨config.output.paths.llmsTxt, Or.inl rfl, ?_⟩
    unfold checkGeneratedFilesIssues
    refine List.mem_append.mpr (Or.inl (List.mem_append.mpr (Or.inl ?_)))
    have hb := checkRequiredFileBlock_missing fs
      (checkCommandCheckOptions config failOn).config
      (resolvedLlmsTxtPath (checkCommandCheckOptions config failOn)) hm
    rw [hb]
    exact List.mem_singleton.mpr rfl
  · refine ⟨config.output.paths.llmsFullTxt, Or.inr rfl, ?_⟩
    unfold checkGeneratedFilesIssues
    refine List.mem_append.mpr (Or.inl (List.mem_append.mpr (Or.inr ?_)))
    have hb := checkRequiredFileBlock_missing fs
      (checkCommandCheckOptions config failOn).config
      (resolvedLlmsFullTxtPath (checkCommandCheckOptions config failOn)) hm
    rw [hb]
    exact List.mem_singleton.mpr rfl

theorem checkCommandRequiredMissing_of_missing (fs : String → Option String)
    (config : LlmsSeoConfig) (failOn : FailOn)
    (hmiss : fs config.output.paths.llmsTxt = none ∨
      fs config.output.paths.llmsFullTxt = none) :
    checkCommandRequiredMissing config
      (checkGeneratedFiles fs (checkCommandCheckOptions config failOn)).issues = true := by
  rw [checkGeneratedFiles_issues_eq]
  obtain ⟨p, hp, hmem⟩ := missing_required_mem_issues fs config failOn hmiss
  rw [checkCommandRequiredMissing, List.any_eq_true]
  refine ⟨_, hmem, ?_⟩
  rcases hp with hp | hp <;> subst hp <;> simp [createCheckIssue]

theorem checkCommandMergedResult_skips (fs : String → Option String)
    (config : LlmsSeoConfig) (failOn : FailOn) (e₁ e₂ : String)
    (h : checkCommandRequiredMissing config
      (checkGeneratedFiles fs (checkCommandCheckOptions config failOn)).issues = true) :
    checkCommandMergedResult fs config failOn e₁ e₂ =
      checkGeneratedFiles fs (checkCommandCheckOptions config failOn) := by
  unfold checkCommandMergedResult
  simp [h]

/-- C5: in one verification invocation (the check command over the two
required output files), if either required file is missing, the
expected-vs-actual diff step is skipped entirely: the `requiredMissing`
guard of `checkCommand` makes the merged result exactly the
`checkGeneratedFiles` result, whatever the expected contents, so the
invocation carries an `error:file_missing` issue for a required path and no
`file_mismatch` issue for any file — only the presence issues
(`file_missing` / `file_empty`) and lint issues appear. -/
theorem c5_missing_required_file_skips_diff (fs : String → Option String)
    (config : LlmsSeoConfig) (failOn : FailOn) (e₁ e₂ : String)
    (hmiss : fs config.output.paths.llmsTxt = none ∨
      fs config.output.paths.llmsFullTxt = none) :
    checkCommandMergedResult fs config failOn e₁ e₂ =
      checkGeneratedFiles fs (checkCommandCheckOptions config failOn) ∧
    (∃ issue ∈ (checkCommandMergedResult fs config failOn e₁ e₂).issues,
      issue.code = CheckIssueCode.file_missing ∧ issue.severity = IssueSeverity.error ∧
        (issue.path = config.output.paths.llmsTxt ∨
          issue.path = config.output.paths.llmsFullTxt)) ∧
    (∀ issue ∈ (checkCommandMergedResult fs config failOn e₁ e₂).issues,
      issue.code ≠ CheckIssueCode.file_mismatch) := by
  have heq := checkCommandMergedResult_skips fs config failOn e₁ e₂
    (checkCommandRequiredMissing_of_missing fs config failOn hmiss)
  refine ⟨heq, ?_, ?_⟩
  · rw [heq, checkGeneratedFiles_issues_eq]
    obtain ⟨p, hp, hmem⟩ := missing_required_mem_issues fs config failOn hmiss
    refine ⟨_, hmem, rfl, rfl, ?_⟩
    rcases hp with hp | hp <;> subst hp
    · exact Or.inl rfl
    · exact Or.inr rfl
  · rw [heq, checkGeneratedFiles_issues_eq]
    exact checkGeneratedFilesIssues_no_mismatch fs (checkCommandCheckOptions config failOn)

/-- Witness for C5: with an empty file system and a concrete configuration,
the hypothesis holds (both required files are missing) and the conclusion
follows at that input. -/
theorem c5_missing_required_file_skips_diff_witness :
    ((fun _ => (none : Option String)) checkSampleConfig.output.paths.llmsTxt = none ∨
      (fun _ => (none : Option String)) checkSampleConfig.output.paths.llmsFullTxt = none) ∧
    (checkCommandMergedResult (fun _ => none) checkSampleConfig FailOn.error
        "expected llms" "expected llms full" =
      checkGeneratedFiles (fun _ => none)
        (checkCommandCheckOptions checkSampleConfig FailOn.error) ∧
    (∃ issue ∈ (checkCommandMergedResult (fun _ => none) checkSampleConfig FailOn.error
        "expected llms" "expected llms full").issues,
      issue.code = CheckIssueCode.file_missing ∧ issue.severity = IssueSeverity.error ∧
        (issue.path = checkSampleConfig.output.paths.llmsTxt ∨
          issue.path = checkSampleConfig.output.paths.llmsFullTxt)) ∧
    (∀ issue ∈ (checkCommandMergedResult (fun _ => none) checkSampleConfig FailOn.error
        "expected llms" "expected llms full").issues,
      issue.code ≠ CheckIssueCode.file_mismatch)) :=
  ⟨Or.inl rfl,
   c5_missing_required_file_skips_diff (fun _ => none) checkSampleConfig FailOn.error
     "expected llms" "expected llms full" (Or.inl rfl)⟩

/-! ## Claim C6 -/

/-- C6: `compareContent` returns `match = true` with empty context exactly
when the two strings are equal; otherwise `match = false` and the context is
the paired `Expected line k` / `Actual line k` entries of the first at most
`maxContextLines` differing line indices (an entry for a side is present
when that side has a line at the index). In particular for
`"A\nB\nC\n"` vs `"A\nX\nC\n"` the context contains `"Expected line 2"`
and `"Actual line 2"`. -/
theorem c6_compare_content_diff :
    (∀ (expected actual : String) (n : Nat),
      (((compareContent expected actual n).matched = true ∧
        (compareContent expected actual n).context = "") ↔ expected = actual)) ∧
    (∀ (expected actual : String) (n : Nat), expected ≠ actual →
      (compareContent expected actual n).matched = false ∧
      (compareContent expected actual n).context =
        jsJoin "\n"
          (((diffIndices (jsSplitChar expected '\n') (jsSplitChar actual '\n')
              (max (jsSplitChar expected '\n').length
                (jsSplitChar actual '\n').length)).take n).flatMap
            (diffEntryFor (jsSplitChar expected '\n') (jsSplitChar actual '\n')))) ∧
    (jsIncludes (compareContent "A\nB\nC\n" "A\nX\nC\n" 5).context "Expected line 2" = true ∧
     jsIncludes (compareContent "A\nB\nC\n" "A\nX\nC\n" 5).context "Actual line 2" = true) := by
  refine ⟨?_, ?_, by decide, by decide⟩
  · intro expected actual n
    by_cases h : expected = actual
    · simp [compareContent, h]
    · simp [compareContent, h]
  · intro expected actual n h
    unfold compareContent
    rw [if_neg h]
    dsimp only []
    exact ⟨rfl, by rw [diffLoop_eq]; rfl⟩

/-- Witness for C6 at concrete contents. -/
theorem c6_compare_content_diff_witness :
    ("A\nB" : String) ≠ "A\nX" ∧ (compareContent "A\nB" "A\nX" 5).matched = false :=
  ⟨by decide, (c6_compare_content_diff.2.1 "A\nB" "A\nX" 5 (by decide)).1⟩

/-! ## Claim C7 (corrected) -/

/-- C7 counterexample: the line `"forbidden terms: best"` contains the
forbidden term `best` case-insensitively and the whitelist is empty, yet
`checkForbiddenTerms` emits no issue — policy-definition lines are skipped,
contradicting the claim's "suppressed exactly when some whitelist phrase
... appears". -/
theorem c7_counterexample_policy_definition_line :
    jsIncludes (jsToLower "forbidden terms: best") (jsToLower "best") = true ∧
    ("best" ∈ ["best"] ∧
      checkForbiddenTerms "forbidden terms: best" ["best"] [] = []) := by decide

/-- C7 (amended): except on policy-definition lines (whose trimmed,
lowercased text starts with `forbidden terms:` or `exceptions:`), a
case-insensitive substring match of a forbidden term on a line yields one
`forbidden_term` issue, suppressed exactly when some whitelist phrase that
itself contains the term also appears (case-insensitively) on the same
line. In particular `"the best provider"` with forbidden `['best']` and
empty whitelist yields exactly one issue, and whitelisting
`'best provider'` suppresses it. -/
theorem c7_forbidden_terms_lint :
    (∀ (content : String) (forbidden whitelist : List String) (i : Nat)
        (line term : String),
      (jsSplitChar content '\n')[i]? = some line → term ∈ forbidden →
      isPolicyDefinitionLine line = false →
      jsIncludes (jsToLower line) (jsToLower term) = true →
      isWhitelistedOn (whitelist.map jsToLower) (jsToLower line) (jsToLower term) = false →
      mkForbiddenIssue (jsTrim line) i term ∈ checkForbiddenTerms content forbidden whitelist) ∧
    (∀ (content : String) (forbidden whitelist : List String),
      ∀ issue ∈ checkForbiddenTerms content forbidden whitelist,
        ∃ i line term, (jsSplitChar content '\n')[i]? = some line ∧ term ∈ forbidden ∧
          issue = mkForbiddenIssue (jsTrim line) i term ∧
          isPolicyDefinitionLine line = false ∧
          jsIncludes (jsToLower line) (jsToLower term) = true ∧
          isWhitelistedOn (whitelist.map jsToLower) (jsToLower line) (jsToLower term) = false) ∧
    (checkForbiddenTerms "the best provider" ["best"] []).length = 1 ∧
    checkForbiddenTerms "the best provider" ["best"] ["best provider"] = [] := by
  refine ⟨?_, ?_, by decide, by decide⟩
  · intro content forbidden whitelist i line term hline hterm hpd hmatch hwl
    unfold checkForbiddenTerms
    refine List.mem_flatMap.mpr ⟨(i, line), List.mem_enum_iff_getElem?.mpr hline, ?_⟩
    rw [if_neg (by simp [hpd])]
    refine List.mem_flatMap.mpr ⟨term, hterm, ?_⟩
    rw [if_pos hmatch, if_neg (by simp [hwl])]
    exact List.mem_singleton.mpr rfl
  · intro content forbidden whitelist issue hmem
    unfold checkForbiddenTerms at hmem
    obtain ⟨⟨i, line⟩, hpair, hin⟩ := List.mem_flatMap.mp hmem
    have hline : (jsSplitChar content '\n')[i]? = some line :=
      List.mem_enum_iff_getElem?.mp hpair
    split at hin
    · simp at hin
    · rename_i hpd
      obtain ⟨term, hterm, hin2⟩ := List.mem_flatMap.mp hin
      split at hin2
      · rename_i hmatch
        split at hin2
        · simp at hin2
        · rename_i hwl
          simp only [List.mem_singleton] at hin2
          subst hin2
          exact ⟨i, line, term, hline, hterm, rfl, by simpa using hpd,
            hmatch, by simpa using hwl⟩
      · simp at hin2

/-- Witness for the amended C7 at a concrete line and term. -/
theorem c7_forbidden_terms_lint_witness :
    ((jsSplitChar "the best provider" '\n')[0]? = some "the best provider" ∧
      "best" ∈ ["best"] ∧
      isPolicyDefinitionLine "the best provider" = false ∧
      jsIncludes (jsToLower "the best provider") (jsToLower "best") = true ∧
      isWhitelistedOn ([].map jsToLower) (jsToLower "the best provider")
        (jsToLower "best") = false) ∧
    mkForbiddenIssue (jsTrim "the best provider") 0 "best" ∈
      checkForbiddenTerms "the best provider" ["best"] [] :=
  ⟨⟨by decide, by decide, by decide, by decide, by decide⟩,
   c7_forbidden_terms_lint.1 "the best provider" ["best"] [] 0 "the best provider" "best"
     (by decide) (by decide) (by decide) (by decide) (by decide)⟩

/-! ## Except helper -/

theorem except_map_ok {α β : Type} (f : α → β) (e : Except String α) (b : β)
    (h : e.map f = .ok b) : ∃ x, e = .ok x ∧ b = f x := by
  cases e with
  | error err => simp [Except.map] at h
  | ok x =>
    refine ⟨x, rfl, ?_⟩
    simpa [Except.map] using h.symm

/-! ## Claim C1 -/

/-- C1: route-style dispatch of `createCanonicalUrlForItem`. For an item
with slug `/post`, section path `/blog`, selected locale `de` and default
locale `en`: `prefix` yields path `/de/blog/post`, `suffix` yields
`/blog/post/de`, `locale-segment` yields `/blog/de/post` (shown on the full
canonical URL over base `https://example.com`). When the selected locale
equals the default (item locales `['en']`), `prefix` and `suffix` yield
`{sectionPath}/{slug}` with no locale segment while `locale-segment` still
includes it; the general fact is proved on `buildPathFromRouteStyle` for
every section path, slug and locale equal to the default. -/
theorem c1_route_style_dispatch :
    createCanonicalUrlForItem { slug := "/post", locales := some ["de"] }
      { baseUrl := "https://example.com", defaultLocale := "en",
        trailingSlash := .never, localeStrategy := .stratPrefix,
        routeStyle := some .stylePrefix, sectionPath := some "/blog" } =
      .ok "https://example.com/de/blog/post" ∧
    createCanonicalUrlForItem { slug := "/post", locales := some ["de"] }
      { baseUrl := "https://example.com", defaultLocale := "en",
        trailingSlash := .never, localeStrategy := .stratPrefix,
        routeStyle := some .styleSuffix, sectionPath := some "/blog" } =
      .ok "https://example.com/blog/post/de" ∧
    createCanonicalUrlForItem { slug := "/post", locales := some ["de"] }
      { baseUrl := "https://example.com", defaultLocale := "en",
        trailingSlash := .never, localeStrategy := .stratPrefix,
        routeStyle := some .styleLocaleSegment, sectionPath := some "/blog" } =
      .ok "https://example.com/blog/de/post" ∧
    createCanonicalUrlForItem { slug := "/post", locales := some ["en"] }
      { baseUrl := "https://example.com", defaultLocale := "en",
        trailingSlash := .never, localeStrategy := .stratPrefix,
        routeStyle := some .stylePrefix, sectionPath := some "/blog" } =
      .ok "https://example.com/blog/post" ∧
    createCanonicalUrlForItem { slug := "/post", locales := some ["en"] }
      { baseUrl := "https://example.com", defaultLocale := "en",
        trailingSlash := .never, localeStrategy := .stratPrefix,
        routeStyle := some .styleSuffix, sectionPath := some "/blog" } =
      .ok "https://example.com/blog/post" ∧
    createCanonicalUrlForItem { slug := "/post", locales := some ["en"] }
      { baseUrl := "https://example.com", defaultLocale := "en",
        trailingSlash := .never, localeStrategy := .stratPrefix,
        routeStyle := some .styleLocaleSegment, sectionPath := some "/blog" } =
      .ok "https://example.com/blog/en/post" ∧
    (∀ sectionPath slug locale d : String, locale = d →
      buildPathFromRouteStyle .stylePrefix sectionPath slug locale d =
        joinUrlParts [sectionPath, slug] ∧
      buildPathFromRouteStyle .styleSuffix sectionPath slug locale d =
        joinUrlParts [sectionPath, slug] ∧
      buildPathFromRouteStyle .styleLocaleSegment sectionPath slug locale d =
        joinUrlParts [sectionPath, locale, slug]) := by
  refine ⟨by decide, by decide, by decide, by decide, by decide, by decide, ?_⟩
  intro sp s l d h
  subst h
  refine ⟨?_, ?_, ?_⟩ <;> simp [buildPathFromRouteStyle]

/-- Witness for C1's general default-locale clause at concrete arguments. -/
theorem c1_route_style_dispatch_witness :
    ("en" : String) = "en" ∧
    buildPathFromRouteStyle .stylePrefix "/blog" "/post" "en" "en" =
      joinUrlParts ["/blog", "/post"] ∧
    buildPathFromRouteStyle .styleLocaleSegment "/blog" "/post" "en" "en" =
      joinUrlParts ["/blog", "en", "/post"] :=
  ⟨rfl,
   (c1_route_style_dispatch.2.2.2.2.2.2 "/blog" "/post" "en" "en" rfl).1,
   (c1_route_style_dispatch.2.2.2.2.2.2 "/blog" "/post" "en" "en" rfl).2.2⟩

/-! ## Claim C3 -/

/-- C3: the canonical URL list of the bundle assembler — the
`canonicalUrls` field of `createCanonicalBundleFromConfig` and, when no
error is thrown, the result of `createCanonicalUrlsFromManifest` — contains
no two equal strings and is ordered by `urlLe`: path-segment count
ascending, ties broken by the (modelled) deterministic string comparator.
The spec's sorting example on three URLs is verified concretely. -/
theorem c3_bundle_urls_dedup_sorted :
    (∀ (config : LlmsSeoConfig) (bundle : CanonicalManifestBundle),
      createCanonicalBundleFromConfig config = .ok bundle →
      bundle.canonicalUrls.Nodup ∧ bundle.canonicalUrls.Pairwise urlLe) ∧
    (∀ (options : CreateCanonicalUrlsOptions) (urls : List String),
      createCanonicalUrlsFromManifest options = .ok urls →
      urls.Nodup ∧ urls.Pairwise urlLe) ∧
    sortUrlsByPath ["https://example.com/blog/category/post", "https://example.com/",
      "https://example.com/blog"] =
      ["https://example.com/", "https://example.com/blog",
       "https://example.com/blog/category/post"] := by
  refine ⟨?_, ?_, by decide⟩
  · intro config bundle h
    unfold createCanonicalBundleFromConfig at h
    obtain ⟨x, -, hb⟩ := except_map_ok _ _ _ h
    subst hb
    exact ⟨sortUrlsByPath_dedupe_nodup _, sortUrlsByPath_pairwise _⟩
  · intro options urls h
    unfold createCanonicalUrlsFromManifest at h
    split at h
    · obtain rfl : ([] : List String) = urls := by simpa using h
      exact ⟨List.nodup_nil, List.Pairwise.nil⟩
    · obtain ⟨x, -, hb⟩ := except_map_ok _ _ _ h
      subst hb
      exact ⟨sortUrlsByPath_dedupe_nodup _, sortUrlsByPath_pairwise _⟩

/-- Witness for C3 at a concrete manifest. -/
theorem c3_bundle_urls_dedup_sorted_witness :
    createCanonicalUrlsFromManifest
      { items := [{ slug := "/b" }, { slug := "/a" }, { slug := "/b" }],
        baseUrl := "https://example.com", defaultLocale := "en",
        trailingSlash := .never, localeStrategy := .stratPrefix } =
      .ok ["https://example.com/a", "https://example.com/b"] ∧
    ((["https://example.com/a", "https://example.com/b"] : List String).Nodup ∧
      (["https://example.com/a", "https://example.com/b"] : List String).Pairwise urlLe) :=
  ⟨by decide,
   c3_bundle_urls_dedup_sorted.2.1
     { items := [{ slug := "/b" }, { slug := "/a" }, { slug := "/b" }],
       baseUrl := "https://example.com", defaultLocale := "en",
       trailingSlash := .never, localeStrategy := .stratPrefix }
     ["https://example.com/a", "https://example.com/b"] (by decide)⟩

/-! ## Claim C8 -/

/-- C8: determinism of the generators. `createLlmsFullTxt` is a pure
function of its options record — two invocations on the same inputs agree
on content, byte size and line count — and `createCitationsJsonString`,
whose only impure expression (`new Date().toISOString()`) is the explicit
`now` argument of the embedding, is independent of the clock whenever a
`fixedTimestamp` is injected. -/
theorem c8_generator_determinism :
    (∀ (options : CreateLlmsFullTxtOptions) (r₁ r₂ : CreateLlmsFullTxtResult),
      r₁ = createLlmsFullTxt options → r₂ = createLlmsFullTxt options →
      r₁.content = r₂.content ∧ r₁.byteSize = r₂.byteSize ∧
        r₁.lineCount = r₂.lineCount) ∧
    (∀ (options : CreateCitationsJsonOptions) (ts now₁ now₂ : String),
      options.fixedTimestamp = some ts →
      createCitationsJsonString options now₁ = createCitationsJsonString options now₂) := by
  constructor
  · intro o r1 r2 h1 h2
    subst h1; subst h2
    exact ⟨rfl, rfl, rfl⟩
  · intro o ts n1 n2 hts
    unfold createCitationsJsonString createCitationsJson
    simp only [hts, Option.getD_some]

/-- Witness for C8 at a concrete configuration and two different clock
values. -/
theorem c8_generator_determinism_witness :
    (createLlmsFullTxt
        { config := { site := { baseUrl := "https://example.com" },
                      brand := { name := "Acme", locales := ["en"] },
                      manifests := [],
                      output := { paths := { llmsTxt := "public/llms.txt",
                                             llmsFullTxt := "public/llms-full.txt" } } },
          canonicalUrls := ["https://example.com/a"],
          manifestItems := [{ slug := "/a" }] }).content =
      (createLlmsFullTxt
        { config := { site := { baseUrl := "https://example.com" },
                      brand := { name := "Acme", locales := ["en"] },
                      manifests := [],
                      output := { paths := { llmsTxt := "public/llms.txt",
                                             llmsFullTxt := "public/llms-full.txt" } } },
          canonicalUrls := ["https://example.com/a"],
          manifestItems := [{ slug := "/a" }] }).content ∧
    (({ config := { site := { baseUrl := "https://example.com" },
                    brand := { name := "Acme", locales := ["en"] },
                    manifests := [],
                    output := { paths := { llmsTxt := "public/llms.txt",
                                           llmsFullTxt := "public/llms-full.txt" } } },
        manifestItems := [{ slug := "/a" }], sectionName := "pages",
        fixedTimestamp := some "2024-01-01T00:00:00.000Z"
        : CreateCitationsJsonOptions }).fixedTimestamp =
      some "2024-01-01T00:00:00.000Z") ∧
    createCitationsJsonString
      { config := { site := { baseUrl := "https://example.com" },
                    brand := { name := "Acme", locales := ["en"] },
                    manifests := [],
                    output := { paths := { llmsTxt := "public/llms.txt",
                                           llmsFullTxt := "public/llms-full.txt" } } },
        manifestItems := [{ slug := "/a" }], sectionName := "pages",
        fixedTimestamp := some "2024-01-01T00:00:00.000Z" } "2025-05-05T05:05:05.000Z" =
    createCitationsJsonString
      { config := { site := { baseUrl := "https://example.com" },
                    brand := { name := "Acme", locales := ["en"] },
                    manifests := [],
                    output := { paths := { llmsTxt := "public/llms.txt",
                                           llmsFullTxt := "public/llms-full.txt" } } },
        manifestItems := [{ slug := "/a" }], sectionName := "pages",
        fixedTimestamp := some "2024-01-01T00:00:00.000Z" } "2026-06-06T06:06:06.000Z" :=
  ⟨(c8_generator_determinism.1 _ (createLlmsFullTxt _) (createLlmsFullTxt _) rfl rfl).1,
   rfl,
   c8_generator_determinism.2 _ "2024-01-01T00:00:00.000Z"
     "2025-05-05T05:05:05.000Z" "2026-06-06T06:06:06.000Z" rfl⟩

/-! ## Path normalization lemmas (claim C9) -/

theorem splitOnCharAux_append_nosep (c : Char) :
    ∀ (s l acc : List Char), (∀ a ∈ s, a ≠ c) →
      splitOnCharAux c (s ++ l) acc = splitOnCharAux c l (s.reverse ++ acc) := by
  intro s
  induction s with
  | nil => intro l acc _; rfl
  | cons x xs ih =>
    intro l acc hs
    have hx : x ≠ c := hs x (List.mem_cons_self x xs)
    simp only [List.cons_append, splitOnCharAux, if_neg hx, List.append_eq]
    rw [ih l (x :: acc) (fun a ha => hs a (List.mem_cons_of_mem x ha))]
    simp

theorem splitOnChar_single_of_nosep (c : Char) (s : List Char)
    (hs : ∀ a ∈ s, a ≠ c) : splitOnChar c s = [s] := by
  unfold splitOnChar
  have := splitOnCharAux_append_nosep c s [] [] hs
  rw [List.append_nil] at this
  rw [this]
  simp [splitOnCharAux]

theorem splitOnCharAux_cons_sep (c : Char) (l acc : List Char) :
    splitOnCharAux c (c :: l) acc = acc.reverse :: splitOnChar c l := by
  simp [splitOnCharAux, splitOnChar]

theorem splitOnChar_joinSlash :
    ∀ segs : List (List Char), segs ≠ [] → (∀ s ∈ segs, s ≠ [] ∧ '/' ∉ s) →
      splitOnChar '/' (joinSlash segs) = segs
  | [], h, _ => absurd rfl h
  | [s], _, hc => by
    have := (hc s (List.mem_singleton.mpr rfl)).2
    exact splitOnChar_single_of_nosep '/' s (fun a ha hac => this (hac ▸ ha))
  | s :: t :: ts, _, hc => by
    have hs : ∀ a ∈ s, a ≠ '/' := by
      intro a ha hac
      exact (hc s (List.mem_cons_self _ _)).2 (hac ▸ ha)
    show splitOnChar '/' (s ++ '/' :: joinSlash (t :: ts)) = s :: t :: ts
    unfold splitOnChar
    rw [splitOnCharAux_append_nosep '/' s _ [] hs, List.append_nil,
      splitOnCharAux_cons_sep]
    rw [List.reverse_reverse]
    rw [splitOnChar_joinSlash (t :: ts) (by simp)
      (fun x hx => hc x (List.mem_cons_of_mem s hx))]

theorem splitOnCharAux_append_sep (c : Char) :
    ∀ (l acc : List Char),
      splitOnCharAux c (l ++ [c]) acc = splitOnCharAux c l acc ++ [[]] := by
  intro l
  induction l with
  | nil => intro acc; simp [splitOnCharAux]
  | cons x xs ih =>
    intro acc
    by_cases hx : x = c
    · subst hx
      simp only [List.cons_append, splitOnCharAux, if_pos rfl, List.append_eq]
      rw [ih]
      simp
    · simp only [List.cons_append, splitOnCharAux, if_neg hx, List.append_eq]
      exact ih (x :: acc)

theorem segStep_nil (acc : List (List Char)) : segStep acc [] = acc := by
  simp [segStep]

theorem foldl_segStep_clean_append :
    ∀ (parts : List (List Char)) (acc : List (List Char)),
      (∀ p ∈ parts, p ≠ [] ∧ p ≠ ['.'] ∧ p ≠ ['.', '.']) →
      parts.foldl segStep acc = acc ++ parts := by
  intro parts
  induction parts with
  | nil => intro acc _; simp
  | cons p rest ih =>
    intro acc hc
    have hp := hc p (List.mem_cons_self p rest)
    have hstep : segStep acc p = acc ++ [p] := by
      unfold segStep
      rw [if_neg (by simp [hp.1, hp.2.1]), if_neg hp.2.2]
    simp only [List.foldl_cons, hstep]
    rw [ih (acc ++ [p]) (fun q hq => hc q (List.mem_cons_of_mem p hq))]
    simp

theorem foldl_segStep_append_empty (parts : List (List Char)) (acc : List (List Char)) :
    (parts ++ [[]]).foldl segStep acc = parts.foldl segStep acc := by
  rw [List.foldl_append]
  simp [segStep_nil]

theorem splitOnCharAux_no_sep (c : Char) :
    ∀ (l acc : List Char), (∀ a ∈ acc, a ≠ c) →
      ∀ p ∈ splitOnCharAux c l acc, ∀ a ∈ p, a ≠ c := by
  intro l
  induction l with
  | nil =>
    intro acc hacc p hp a ha
    simp only [splitOnCharAux, List.mem_singleton] at hp
    subst hp
    exact hacc a (List.mem_reverse.mp ha)
  | cons x xs ih =>
    intro acc hacc p hp a ha
    by_cases hx : x = c
    · rw [hx] at hp
      rw [splitOnCharAux_cons_sep] at hp
      rcases List.mem_cons.mp hp with hp1 | hp2
      · subst hp1
        exact hacc a (List.mem_reverse.mp ha)
      · exact ih [] (by simp) p hp2 a ha
    · simp only [splitOnCharAux, if_neg hx] at hp
      refine ih (x :: acc) ?_ p hp a ha
      intro b hb
      rcases List.mem_cons.mp hb with hb1 | hb2
      · subst hb1; exact hx
      · exact hacc b hb2

theorem foldl_segStep_mem_clean :
    ∀ (parts : List (List Char)) (acc : List (List Char)),
      (∀ s ∈ acc, cleanSeg s) → (∀ p ∈ parts, '/' ∉ p) →
      ∀ s ∈ parts.foldl segStep acc, cleanSeg s := by
  intro parts
  induction parts with
  | nil => intro acc hacc _ s hs; exact hacc s hs
  | cons p rest ih =>
    intro acc hacc hparts s hs
    simp only [List.foldl_cons] at hs
    refine ih (segStep acc p) ?_ (fun q hq => hparts q (List.mem_cons_of_mem p hq)) s hs
    intro t ht
    unfold segStep at ht
    split at ht
    · exact hacc t ht
    · split at ht
      · exact hacc t ((List.dropLast_sublist acc).subset ht)
      · rcases List.mem_append.mp ht with h1 | h2
        · exact hacc t h1
        · rename_i hno hdd
          simp only [List.mem_singleton] at h2
          subst h2
          push_neg at hno
          exact ⟨hno.2, hparts t (List.mem_cons_self _ _), hno.1, hdd⟩

theorem chain'_of_no_slash :
    ∀ s : List Char, '/' ∉ s → s.Chain' noSlashPair := by
  intro s
  induction s with
  | nil => intro _; exact List.chain'_nil
  | cons x xs ih =>
    intro h
    rw [List.chain'_cons']
    refine ⟨?_, ih (fun hm => h (List.mem_cons_of_mem x hm))⟩
    intro y _ hx
    exact absurd (hx ▸ List.mem_cons_self x xs) h

theorem joinSlash_ne_nil :
    ∀ segs : List (List Char), segs ≠ [] → (∀ s ∈ segs, s ≠ []) →
      joinSlash segs ≠ []
  | [], h, _ => absurd rfl h
  | [s], _, hc => by
    simpa [joinSlash] using hc s (List.mem_singleton.mpr rfl)
  | s :: t :: ts, _, hc => by
    show s ++ '/' :: joinSlash (t :: ts) ≠ []
    simp

theorem joinSlash_head_ne_slash :
    ∀ segs : List (List Char), (∀ s ∈ segs, s ≠ [] ∧ '/' ∉ s) →
      ∀ a ∈ (joinSlash segs).head?, a ≠ '/'
  | [], _, a, ha => by simp [joinSlash] at ha
  | [s], hc, a, ha => by
    obtain ⟨hne, hns⟩ := hc s (List.mem_singleton.mpr rfl)
    simp only [joinSlash] at ha
    intro hslash
    subst hslash
    exact hns (List.mem_of_mem_head? ha)
  | s :: t :: ts, hc, a, ha => by
    obtain ⟨hne, hns⟩ := hc s (List.mem_cons_self _ _)
    have : (s ++ '/' :: joinSlash (t :: ts)).head? = s.head? :=
      List.head?_append_of_ne_nil _ hne
    rw [show joinSlash (s :: t :: ts) = s ++ '/' :: joinSlash (t :: ts) from rfl,
      this] at ha
    intro hslash
    subst hslash
    exact hns (List.mem_of_mem_head? ha)

theorem joinSlash_getLast_ne_slash :
    ∀ segs : List (List Char), (∀ s ∈ segs, s ≠ [] ∧ '/' ∉ s) →
      ∀ a ∈ (joinSlash segs).getLast?, a ≠ '/'
  | [], _, a, ha => by simp [joinSlash] at ha
  | [s], hc, a, ha => by
    obtain ⟨hne, hns⟩ := hc s (List.mem_singleton.mpr rfl)
    simp only [joinSlash] at ha
    intro hslash
    subst hslash
    exact hns (List.mem_of_mem_getLast? ha)
  | s :: t :: ts, hc, a, ha => by
    have hrest : ∀ x ∈ (t :: ts), x ≠ [] ∧ '/' ∉ x :=
      fun x hx => hc x (List.mem_cons_of_mem s hx)
    have hjne : joinSlash (t :: ts) ≠ [] :=
      joinSlash_ne_nil (t :: ts) (by simp) (fun x hx => (hrest x hx).1)
    have h1 : (s ++ '/' :: joinSlash (t :: ts)).getLast? =
        ('/' :: joinSlash (t :: ts)).getLast? :=
      List.getLast?_append_of_ne_nil s (by simp)
    have h2 : ('/' :: joinSlash (t :: ts)).getLast? = (joinSlash (t :: ts)).getLast? := by
      cases hj : joinSlash (t :: ts) with
      | nil => exact absurd hj hjne
      | cons y ys => simp [List.getLast?_cons_cons]
    rw [show joinSlash (s :: t :: ts) = s ++ '/' :: joinSlash (t :: ts) from rfl,
      h1, h2] at ha
    exact joinSlash_getLast_ne_slash (t :: ts) hrest a ha

theorem joinSlash_chain' :
    ∀ segs : List (List Char), (∀ s ∈ segs, s ≠ [] ∧ '/' ∉ s) →
      (joinSlash segs).Chain' noSlashPair
  | [], _ => List.chain'_nil
  | [s], hc => chain'_of_no_slash s (hc s (List.mem_singleton.mpr rfl)).2
  | s :: t :: ts, hc => by
    have hrest : ∀ x ∈ (t :: ts), x ≠ [] ∧ '/' ∉ x :=
      fun x hx => hc x (List.mem_cons_of_mem s hx)
    show (s ++ '/' :: joinSlash (t :: ts)).Chain' noSlashPair
    rw [List.chain'_append]
    refine ⟨chain'_of_no_slash s (hc s (List.mem_cons_self _ _)).2, ?_, ?_⟩
    · rw [List.chain'_cons']
      refine ⟨?_, joinSlash_chain' (t :: ts) hrest⟩
      intro y hy hslash
      exact (joinSlash_head_ne_slash (t :: ts) hrest y hy)
    · intro x hx y hy hxs
      have hmem : '/' ∈ s := hxs ▸ List.mem_of_mem_getLast? hx
      exact absurd hmem (hc s (List.mem_cons_self _ _)).2

theorem core_chain' (segs : List (List Char))
    (hc : ∀ s ∈ segs, s ≠ [] ∧ '/' ∉ s) :
    ('/' :: joinSlash segs).Chain' noSlashPair := by
  rw [List.chain'_cons']
  exact ⟨fun y hy _ => joinSlash_head_ne_slash segs hc y hy, joinSlash_chain' segs hc⟩

theorem core_trailing_chain' (segs : List (List Char)) (hne : segs ≠ [])
    (hc : ∀ s ∈ segs, s ≠ [] ∧ '/' ∉ s) :
    (('/' :: joinSlash segs) ++ ['/']).Chain' noSlashPair := by
  rw [List.chain'_append]
  refine ⟨core_chain' segs hc, List.chain'_singleton _, ?_⟩
  intro x hx y hy hxs
  have hjl : joinSlash segs ≠ [] :=
    joinSlash_ne_nil segs hne (fun s hs => (hc s hs).1)
  have h2 : ('/' :: joinSlash segs).getLast? = (joinSlash segs).getLast? := by
    cases hj : joinSlash segs with
    | nil => exact absurd hj hjl
    | cons z zs => simp [List.getLast?_cons_cons]
  rw [h2] at hx
  simp only [List.head?_cons, Option.mem_def, Option.some.injEq] at hy
  subst hy
  exact absurd hxs (joinSlash_getLast_ne_slash segs hc x hx)

theorem chain'_no_double_infix (l : List Char) (h : l.Chain' noSlashPair) :
    ¬ (['/', '/'] <:+: l) := by
  intro hinf
  obtain ⟨s, t, hst⟩ := hinf
  subst hst
  rw [List.append_assoc] at h
  have h1 := (List.chain'_append.mp h).2.1
  rw [List.cons_append, List.cons_append, List.nil_append] at h1
  exact (List.chain'_cons.mp h1).1 rfl rfl

theorem collapseSlashes_id_of_chain :
    ∀ l : List Char, l.Chain' noSlashPair → collapseSlashes l = l
  | [], _ => rfl
  | [x], _ => rfl
  | x :: y :: rest, h => by
    have hpair : noSlashPair x y := (List.chain'_cons.mp h).1
    have ht : (y :: rest).Chain' noSlashPair := (List.chain'_cons.mp h).2
    show collapseSlashes (x :: y :: rest) = x :: y :: rest
    unfold collapseSlashes
    rw [if_neg (fun hc => hpair hc.1 hc.2)]
    rw [collapseSlashes_id_of_chain (y :: rest) ht]

theorem splitOnChar_core (segs : List (List Char)) (hne : segs ≠ [])
    (hc : ∀ s ∈ segs, s ≠ [] ∧ '/' ∉ s) :
    splitOnChar '/' ('/' :: joinSlash segs) = [] :: segs := by
  unfold splitOnChar
  rw [show splitOnCharAux '/' ('/' :: joinSlash segs) [] =
      [].reverse :: splitOnChar '/' (joinSlash segs) from splitOnCharAux_cons_sep _ _ _]
  rw [splitOnChar_joinSlash segs hne hc]
  rfl

theorem splitOnChar_core_trailing (segs : List (List Char)) (hne : segs ≠ [])
    (hc : ∀ s ∈ segs, s ≠ [] ∧ '/' ∉ s) :
    splitOnChar '/' (('/' :: joinSlash segs) ++ ['/']) = ([] :: segs) ++ [[]] := by
  unfold splitOnChar
  rw [splitOnCharAux_append_sep]
  rw [show splitOnCharAux '/' ('/' :: joinSlash segs) [] =
      splitOnChar '/' ('/' :: joinSlash segs) from rfl]
  rw [splitOnChar_core segs hne hc]

theorem normalizePathSegments_clean (p : String) :
    ∀ s ∈ normalizePathSegments p, cleanSeg s := by
  intro s hs
  unfold normalizePathSegments at hs
  refine foldl_segStep_mem_clean _ [] (by simp) ?_ s hs
  intro q hq hsl
  exact splitOnCharAux_no_sep '/' _ [] (by simp) q hq '/' hsl rfl

theorem normalizePath_cases (p : String) (f : Bool) :
    normalizePath p f = "/" ∨
    ∃ segs, segs ≠ [] ∧ (∀ s ∈ segs, cleanSeg s) ∧
      (normalizePath p f = String.mk ('/' :: joinSlash segs) ∨
       (f = true ∧ normalizePath p f = String.mk (('/' :: joinSlash segs) ++ ['/']))) := by
  by_cases h0 : p = "" ∨ p = "/"
  · left
    unfold normalizePath
    rw [if_pos h0]
  · unfold normalizePath
    rw [if_neg h0]
    dsimp only []
    by_cases hseg : normalizePathSegments p = []
    · left
      rw [hseg]
      split
    
      · rename_i hcond
        exact absurd rfl hcond.2.2
      · rfl
    · right
      refine ⟨normalizePathSegments p, hseg, normalizePathSegments_clean p, ?_⟩
      split
      · rename_i hcond
        exact Or.inr ⟨hcond.1, rfl⟩
      · exact Or.inl rfl

theorem normalizePathSegments_core (segs : List (List Char)) (hne : segs ≠ [])
    (hc : ∀ s ∈ segs, cleanSeg s) :
    normalizePathSegments (String.mk ('/' :: joinSlash segs)) = segs := by
  have hc' : ∀ s ∈ segs, s ≠ [] ∧ '/' ∉ s := fun s hs => ⟨(hc s hs).1, (hc s hs).2.1⟩
  unfold normalizePathSegments
  rw [if_pos (by simp [hasLeadingSlash])]
  rw [show (String.mk ('/' :: joinSlash segs)).data = '/' :: joinSlash segs from rfl]
  rw [collapseSlashes_id_of_chain _ (core_chain' segs hc')]
  rw [splitOnChar_core segs hne hc']
  rw [show ([] :: segs).foldl segStep [] = segs.foldl segStep [] from rfl]
  rw [foldl_segStep_clean_append segs []
    (fun q hq => ⟨(hc q hq).1, (hc q hq).2.2.1, (hc q hq).2.2.2⟩)]
  rfl

theorem normalizePathSegments_core_trailing (segs : List (List Char)) (hne : segs ≠ [])
    (hc : ∀ s ∈ segs, cleanSeg s) :
    normalizePathSegments (String.mk (('/' :: joinSlash segs) ++ ['/'])) = segs := by
  have hc' : ∀ s ∈ segs, s ≠ [] ∧ '/' ∉ s := fun s hs => ⟨(hc s hs).1, (hc s hs).2.1⟩
  unfold normalizePathSegments
  rw [if_pos (by simp [hasLeadingSlash])]
  rw [show (String.mk (('/' :: joinSlash segs) ++ ['/'])).data =
      ('/' :: joinSlash segs) ++ ['/'] from rfl]
  rw [collapseSlashes_id_of_chain _ (core_trailing_chain' segs hne hc')]
  rw [splitOnChar_core_trailing segs hne hc']
  rw [foldl_segStep_append_empty]
  rw [show ([] :: segs).foldl segStep [] = segs.foldl segStep [] from rfl]
  rw [foldl_segStep_clean_append segs []
    (fun q hq => ⟨(hc q hq).1, (hc q hq).2.2.1, (hc q hq).2.2.2⟩)]
  rfl

theorem normalizePath_core_fixed (segs : List (List Char)) (hne : segs ≠ [])
    (hc : ∀ s ∈ segs, cleanSeg s) (f : Bool) :
    normalizePath (String.mk ('/' :: joinSlash segs)) f =
      String.mk ('/' :: joinSlash segs) := by
  have hc' : ∀ s ∈ segs, s ≠ [] ∧ '/' ∉ s := fun s hs => ⟨(hc s hs).1, (hc s hs).2.1⟩
  have hjne : joinSlash segs ≠ [] := joinSlash_ne_nil segs hne (fun s hs => (hc s hs).1)
  have hp0 : ¬(String.mk ('/' :: joinSlash segs) = "" ∨
      String.mk ('/' :: joinSlash segs) = "/") := by
    rintro (h | h)
    · exact absurd (congrArg String.data h) (by simp)
    · have hd := congrArg String.data h
      simp only [String.data] at hd
      simp only [List.cons.injEq, true_and] at hd
      exact hjne hd
  unfold normalizePath
  rw [if_neg hp0]
  dsimp only []
  rw [normalizePathSegments_core segs hne hc]
  have htr : ¬ (hasTrailingSlash (String.mk ('/' :: joinSlash segs)) = true) := by
    simp only [hasTrailingSlash, decide_eq_true_eq]
    have h2 : ('/' :: joinSlash segs).getLast? = (joinSlash segs).getLast? := by
      cases hj : joinSlash segs with
      | nil => exact absurd hj hjne
      | cons z zs => simp [List.getLast?_cons_cons]
    intro hlast
    rw [h2] at hlast
    exact joinSlash_getLast_ne_slash segs hc' '/' (by rw [hlast]; rfl) rfl
  rw [if_neg (fun hcond => htr hcond.2.1.1)]

theorem normalizePath_trailing_fixed (segs : List (List Char)) (hne : segs ≠ [])
    (hc : ∀ s ∈ segs, cleanSeg s) :
    normalizePath (String.mk (('/' :: joinSlash segs) ++ ['/'])) true =
      String.mk (('/' :: joinSlash segs) ++ ['/']) := by
  have hjne : joinSlash segs ≠ [] := joinSlash_ne_nil segs hne (fun s hs => (hc s hs).1)
  have hp0 : ¬(String.mk (('/' :: joinSlash segs) ++ ['/']) = "" ∨
      String.mk (('/' :: joinSlash segs) ++ ['/']) = "/") := by
    rintro (h | h)
    · exact absurd (congrArg String.data h) (by simp)
    · have hd := congrArg String.data h
      simp only [String.data] at hd
      have : ('/' :: joinSlash segs) ++ ['/'] = ['/'] := hd
      cases hj : joinSlash segs with
      | nil => exact hjne hj
      | cons z zs =>
        rw [hj] at this
        simp at this
  unfold normalizePath
  rw [if_neg hp0]
  dsimp only []
  rw [normalizePathSegments_core_trailing segs hne hc]
  have htr : hasTrailingSlash (String.mk (('/' :: joinSlash segs) ++ ['/'])) = true := by
    simp only [hasTrailingSlash, decide_eq_true_eq]
    show (('/' :: joinSlash segs) ++ ['/']).getLast? = some '/'
    exact List.getLast?_concat _
  have hpne : String.mk (('/' :: joinSlash segs) ++ ['/']) ≠ "/" := fun h => hp0 (Or.inr h)
  have hcore : ('/' :: joinSlash segs) ≠ ['/'] := by
    intro h
    exact hjne (by simpa using h)
  rw [if_pos ⟨rfl, ⟨htr, hpne⟩, hcore⟩]

/-- C9: `normalizePath` is idempotent — for every string `p` and boolean
`preserveTrailingSlash` flag `f`,
`normalizePath (normalizePath p f) f = normalizePath p f` — and every output
starts with `/`, contains no `//` substring and has no `.` or `..`
segments. -/
theorem c9_normalize_path_idempotent :
    (∀ (p : String) (f : Bool), normalizePath (normalizePath p f) f = normalizePath p f) ∧
    (∀ (p : String) (f : Bool),
      (∃ rest, (normalizePath p f).data = '/' :: rest) ∧
      ¬ (List.IsInfix ['/', '/'] (normalizePath p f).data) ∧
      (∀ s ∈ splitOnChar '/' (normalizePath p f).data, s ≠ ['.'] ∧ s ≠ ['.', '.'])) := by
  constructor
  · intro p f
    rcases normalizePath_cases p f with h | ⟨segs, hne, hc, h | ⟨hf, h⟩⟩
    · rw [h]
      unfold normalizePath
      rw [if_pos (Or.inr rfl)]
    · rw [h]
      exact normalizePath_core_fixed segs hne hc f
    · rw [h, hf]
      exact normalizePath_trailing_fixed segs hne hc
  · intro p f
    rcases normalizePath_cases p f with h | ⟨segs, hne, hc, h | ⟨hf, h⟩⟩
    · rw [h]
      refine ⟨⟨[], rfl⟩, by decide, by decide⟩
    · rw [h]
      have hc' : ∀ s ∈ segs, s ≠ [] ∧ '/' ∉ s := fun s hs => ⟨(hc s hs).1, (hc s hs).2.1⟩
      refine ⟨⟨joinSlash segs, rfl⟩, ?_, ?_⟩
      · exact chain'_no_double_infix _ (core_chain' segs hc')
      · show ∀ s ∈ splitOnChar '/' ('/' :: joinSlash segs), s ≠ ['.'] ∧ s ≠ ['.', '.']
        rw [splitOnChar_core segs hne hc']
        intro s hs
        rcases List.mem_cons.mp hs with h1 | h2
        · subst h1; exact ⟨by decide, by decide⟩
        · exact ⟨(hc s h2).2.2.1, (hc s h2).2.2.2⟩
    · rw [h]
      have hc' : ∀ s ∈ segs, s ≠ [] ∧ '/' ∉ s := fun s hs => ⟨(hc s hs).1, (hc s hs).2.1⟩
      refine ⟨⟨joinSlash segs ++ ['/'], rfl⟩, ?_, ?_⟩
      · exact chain'_no_double_infix _ (core_trailing_chain' segs hne hc')
      · show ∀ s ∈ splitOnChar '/' (('/' :: joinSlash segs) ++ ['/']),
          s ≠ ['.'] ∧ s ≠ ['.', '.']
        rw [splitOnChar_core_trailing segs hne hc']
        intro s hs
        rcases List.mem_append.mp hs with h1 | h2
        · rcases List.mem_cons.mp h1 with h3 | h4
          · subst h3; exact ⟨by decide, by decide⟩
          · exact ⟨(hc s h4).2.2.1, (hc s h4).2.2.2⟩
        · simp only [List.mem_singleton] at h2
          subst h2
          exact ⟨by decide, by decide⟩
